import Mathlib

/-!
# Verification of `src/server/pdf_parser.py`

Shallow embedding of the bank-statement PDF parser: account detection,
the BMO line-oriented parser, the TD position-based parser (checking and
credit-card layouts) and the orchestration in `main`.

Modelling conventions:
* Monetary amounts are integer cents (`Int`).  Every numeral the program
  parses has exactly two decimal digits, so `float` values produced by the
  code are exact multiples of 0.01 and `round(x, 2)` is the identity; sign
  and zero tests on the floats coincide with sign and zero tests on cents.
* Word coordinates (`x0`, `top`) are integers (`Int`).  The source
  manipulates them only by subtraction, comparison, absolute value and
  one halving (`xmid = xds / 2`); the halved comparison `x < xds / 2` is
  embedded exactly as `2 * x < xds`, so no precision is lost.
* The external document-layout collaborator (pdfplumber) is modelled as
  data: a document is a list of pages, each page offering the two
  primitives the core consumes, `extract_text` (which may raise, or return
  `None`) and `extract_words` (which may raise).  `pdfplumber.open` may
  also raise.  Python exceptions are modelled with `Except String`.
* `datetime.now()` is threaded through as explicit `(nowM, nowY)` inputs.
* Strings are treated as ASCII (the regexes in the source only use ASCII
  classes on the inputs the program handles).
-/

/-- Python's `\s` class, ASCII part: space, tab, newline, CR, VT, FF. -/
def pySpace (c : Char) : Bool :=
  c = ' ' || c = '\t' || c = '\n' || c = '\r' || c = '\x0b' || c = '\x0c'

def isAsciiAlpha (c : Char) : Bool :=
  (65 ≤ c.toNat && c.toNat ≤ 90) || (97 ≤ c.toNat && c.toNat ≤ 122)

def isAsciiDigit (c : Char) : Bool :=
  48 ≤ c.toNat && c.toNat ≤ 57

/-- Python `\w` (ASCII part): letters, digits, underscore. -/
def isWordChar (c : Char) : Bool :=
  isAsciiAlpha c || isAsciiDigit c || c = '_'

def digitVal (c : Char) : Nat := c.toNat - '0'.toNat

def digitsVal (cs : List Char) : Nat :=
  cs.foldl (fun a c => a * 10 + digitVal c) 0

/-- `startsWithL hay pre` : does `hay` start with `pre`. -/
def startsWithL : List Char → List Char → Bool
  | _, [] => true
  | [], _ :: _ => false
  | c :: cs, d :: ds => c = d && startsWithL cs ds

/-- Python's substring test `needle in hay` on char lists. -/
def hasSubL (hay needle : List Char) : Bool :=
  startsWithL hay needle ||
    (match hay with
     | [] => false
     | _ :: t => hasSubL t needle)

/-- Python's substring test `needle in hay`. -/
def hasSub (hay needle : String) : Bool :=
  hasSubL hay.toList needle.toList

def upperL (cs : List Char) : List Char := cs.map Char.toUpper
def lowerL (cs : List Char) : List Char := cs.map Char.toLower

def upperS (s : String) : String := ⟨upperL s.toList⟩
def lowerS (s : String) : String := ⟨lowerL s.toList⟩

/-- Python `str.strip()` (both ends, whitespace). -/
def pyStripL (cs : List Char) : List Char :=
  ((cs.dropWhile pySpace).reverse.dropWhile pySpace).reverse

def pyStrip (s : String) : String := ⟨pyStripL s.toList⟩

/-- Python `str.rstrip(':')`. -/
def rstripColonL (cs : List Char) : List Char :=
  (cs.reverse.dropWhile (· = ':')).reverse

/-- Python `str.split()` — split on whitespace runs, dropping empties. -/
def pySplitL : List Char → List (List Char)
  | [] => []
  | c :: cs =>
    if pySpace c then pySplitL cs
    else
      match pySplitL cs with
      | [] => [[c]]
      | w :: ws =>
        match cs with
        | [] => [[c]]
        | d :: _ => if pySpace d then [c] :: w :: ws else (c :: w) :: ws

def pySplit (s : String) : List String :=
  (pySplitL s.toList).map (fun l => (⟨l⟩ : String))

/-- The line boundaries of Python `str.splitlines()` other than `\n`,
`\r` and `\r\n`: vertical tab, form feed, the three information
separators, NEL, and the Unicode line and paragraph separators. -/
def pyLineBreak (c : Char) : Bool :=
  c = '\x0b' || c = '\x0c' || c = '\x1c' || c = '\x1d' || c = '\x1e' ||
  c = '\x85' || c = '\u2028' || c = '\u2029'

/-- Worker for `splitlines`: `acc` is the current line, reversed. -/
def splitlinesGo : List Char → List Char → List (List Char)
  | acc, [] => [acc.reverse]
  | acc, '\r' :: '\n' :: t =>
    acc.reverse :: (if t.isEmpty then [] else splitlinesGo [] t)
  | acc, '\r' :: t =>
    acc.reverse :: (if t.isEmpty then [] else splitlinesGo [] t)
  | acc, '\n' :: t =>
    acc.reverse :: (if t.isEmpty then [] else splitlinesGo [] t)
  | acc, c :: t =>
    if pyLineBreak c then
      acc.reverse :: (if t.isEmpty then [] else splitlinesGo [] t)
    else splitlinesGo (c :: acc) t

/-- Python `str.splitlines()` (a trailing terminator yields no empty
final line). -/
def pySplitlinesL (cs : List Char) : List (List Char) :=
  if cs.isEmpty then [] else splitlinesGo [] cs

def pySplitlines (s : String) : List String :=
  (pySplitlinesL s.toList).map (fun l => (⟨l⟩ : String))

mutual

/-- `re.sub(r'\s+', ' ', s)` — collapse whitespace runs to single spaces. -/
def collapseWsL : List Char → List Char
  | [] => []
  | c :: cs => if pySpace c then ' ' :: collapseSkip cs else c :: collapseWsL cs

/-- Skipping the remainder of a whitespace run. -/
def collapseSkip : List Char → List Char
  | [] => []
  | c :: cs => if pySpace c then collapseSkip cs else c :: collapseWsL cs

end

/-- `re.sub(r'\s+', ' ', s).strip()` as used for descriptions. -/
def collapseWs (s : String) : String := pyStrip ⟨collapseWsL s.toList⟩

/-- `str.zfill(2)` for the day strings produced by the regexes. -/
def zfill2 (s : String) : String :=
  if s.length = 1 then "0" ++ s else s

/-- Rendering `{n:02d}` for the month/day fields. -/
def pad2 (n : Nat) : String :=
  if n < 10 then "0" ++ toString n else toString n

/-- `f"{yr}-{month:02d}-{day:02d}"`. -/
def isoRender (y : Int) (m d : Nat) : String :=
  toString y ++ "-" ++ pad2 m ++ "-" ++ pad2 d

/-- Month abbreviations recognized by `strptime`'s `%b` (C locale),
case-insensitively. -/
def monthFromAbbr (s : String) : Option Nat :=
  match lowerS s with
  | "jan" => some 1 | "feb" => some 2 | "mar" => some 3 | "apr" => some 4
  | "may" => some 5 | "jun" => some 6 | "jul" => some 7 | "aug" => some 8
  | "sep" => some 9 | "oct" => some 10 | "nov" => some 11 | "dec" => some 12
  | _ => none

/-- Days per month in 1900, the default year `strptime` validates against
when the format string carries no year (1900 is not a leap year). -/
def daysIn1900 (m : Nat) : Nat :=
  match m with
  | 1 => 31 | 2 => 28 | 3 => 31 | 4 => 30 | 5 => 31 | 6 => 30
  | 7 => 31 | 8 => 31 | 9 => 30 | 10 => 31 | 11 => 30 | 12 => 31
  | _ => 0

/-- `Path(p).name`: the final path component (paths here do not end in
a separator). -/
def pathName (p : String) : String :=
  ⟨p.toList.foldl (fun acc c => if c = '/' then [] else acc ++ [c]) []⟩

/-- `str.startswith(pre)`. -/
def strStarts (s pre : String) : Bool := startsWithL s.toList pre.toList

/-- `sep.join(l)`. -/
def strIntercalate (sep : String) : List String → String
  | [] => ""
  | a :: as => as.foldl (fun acc x => acc ++ sep ++ x) a

/-- `"".join(l)`. -/
def strJoin (l : List String) : String := l.foldl (fun acc x => acc ++ x) ""

/-- Python `max(l, default=d)`. -/
def maxD : List Int → Int → Int
  | [], d => d
  | a :: as, _ => as.foldl (fun x y => if x ≤ y then y else x) a

/-- The `YYYY-MM-DD` shape: four digits, dash, two digits, dash, two
digits. -/
def isIsoDate (s : String) : Bool :=
  match s.toList with
  | [y1, y2, y3, y4, '-', m1, m2, '-', d1, d2] =>
    isAsciiDigit y1 && isAsciiDigit y2 && isAsciiDigit y3 && isAsciiDigit y4 &&
      isAsciiDigit m1 && isAsciiDigit m2 && isAsciiDigit d1 && isAsciiDigit d2
  | _ => false

-- ── Data model ───────────────────────────────────────────────────────────

/-- One output transaction (amount in integer cents). -/
structure Tx where
  Date : String
  Description : String
  Amount : Int
deriving DecidableEq, Repr

/-- A word as returned by `page.extract_words`: text plus horizontal
start, vertical top and the upright flag. -/
structure Word where
  text : String
  x0 : Int
  top : Int
  upright : Bool
deriving DecidableEq, Repr

/-- One page of the document-layout collaborator.  `extract_text` may
raise or return `None`; `extract_words` (parameterised by the
`x_tolerance` the caller passes) may raise. -/
structure Page where
  textRes : Except String (Option String)
  wordsRes : Int → Except String (List Word)

/-- A document: `pdfplumber.open` may raise; otherwise it exposes pages. -/
structure PDoc where
  openRes : Except String Unit
  pages : List Page

deriving instance DecidableEq for Except

/-- `with pdfplumber.open(p) as pdf: … pdf.pages`. -/
def openPages (d : PDoc) : Except String (List Page) :=
  match d.openRes with
  | .error e => .error e
  | .ok _ => .ok d.pages

-- ── BMO regexes ──────────────────────────────────────────────────────────
-- _BMO_TRANS = re.compile(
--   r'^([A-Z][a-z]{2}\.??\s?\d{1,2})\s+([A-Z][a-z]{2}\.??\s?\d{1,2})\s+'
--   r'(.*?)\s+(-?[\d,]+\.\d{2}(?:\s?CR)?)\b', re.I)
-- The matcher below reproduces the Python backtracking engine's behaviour
-- for this pattern.  Candidate lists are ordered the way the engine
-- explores alternatives (lazy `??` prefers absence, greedy `?`/counted
-- repeats prefer the longest branch, choice points opened earlier
-- backtrack later).

/-- First success over an ordered candidate list. -/
def firstSome {α β : Type} (f : α → Option β) : List α → Option β
  | [] => none
  | a :: l =>
    match f a with
    | some b => some b
    | none => firstSome f l

/-- Candidates for `\.??` (lazy: prefer skipping the dot). -/
def dotOpts (cs : List Char) : List (List Char × List Char) :=
  match cs with
  | '.' :: rest => [([], cs), (['.'], rest)]
  | _ => [([], cs)]

/-- Candidates for `\s?` (greedy: prefer consuming one whitespace). -/
def spaceOpts (cs : List Char) : List (List Char × List Char) :=
  match cs with
  | c :: rest => if pySpace c then [([c], rest), ([], cs)] else [([], cs)]
  | [] => [([], cs)]

/-- Candidates for `\d{1,2}` (greedy: two digits before one). -/
def digitOpts (cs : List Char) : List (List Char × List Char) :=
  match cs with
  | c1 :: c2 :: rest =>
    if isAsciiDigit c1 then
      if isAsciiDigit c2 then [([c1, c2], rest), ([c1], c2 :: rest)]
      else [([c1], c2 :: rest)]
    else []
  | [c1] => if isAsciiDigit c1 then [([c1], [])] else []
  | [] => []

/-- Candidates for a date token `[A-Z][a-z]{2}\.??\s?\d{1,2}` (with re.I
all three leading chars are just letters), in engine preference order. -/
def dateTokCands (cs : List Char) : List (List Char × List Char) :=
  match cs with
  | c1 :: c2 :: c3 :: rest =>
    if isAsciiAlpha c1 && isAsciiAlpha c2 && isAsciiAlpha c3 then
      (dotOpts rest).flatMap (fun dotC =>
        (spaceOpts dotC.2).flatMap (fun spC =>
          (digitOpts spC.2).map (fun dC =>
            (c1 :: c2 :: c3 :: (dotC.1 ++ spC.1 ++ dC.1), dC.2))))
    else []
  | _ => []

/-- `\s+` before a token that cannot start with whitespace: the greedy
maximal run is the only viable branch, so it is taken deterministically.
Fails when no whitespace is present. -/
def plusSpaces (cs : List Char) : Option (List Char) :=
  match cs with
  | c :: rest => if pySpace c then some (rest.dropWhile pySpace) else none
  | [] => none

/-- Backtracking positions of a greedy `\s+` whose follower may itself
match whitespace (the `\s+` before the lazy description group): the
remainders after consuming k ≥ 1 whitespace characters, longest
consumption first, which is the engine's preference order. -/
def plusSpacesCands (cs : List Char) : List (List Char) :=
  match cs with
  | c :: rest =>
    if pySpace c then
      match plusSpacesCands rest with
      | [] => [rest]
      | ls => ls ++ [rest]
    else []
  | [] => []

/-- `\b` after a word character: next char absent or not a word char. -/
def atBoundary (cs : List Char) : Bool :=
  match cs with
  | [] => true
  | c :: _ => !isWordChar c

/-- The amount group `-?[\d,]+\.\d{2}(?:\s?CR)?` followed by `\b`.
Deterministic: `-?` is forced by the next character, `[\d,]+` must be the
maximal class run (a shorter run would leave a class character where `\.`
is required), and of the `(?:\s?CR)?` branches (space+CR, CR, empty) at
most the first applicable one and the empty branch can satisfy `\b`,
tried in greedy order.  Returns (token, rest-after-token). -/
def amtMatchCore (minusPart cs1 : List Char) : Option (List Char × List Char) :=
  let run := cs1.takeWhile (fun c => isAsciiDigit c || c = ',')
  let cs2 := cs1.drop run.length
  if run.isEmpty then none
  else
    match cs2 with
    | '.' :: d1 :: d2 :: rest =>
      if isAsciiDigit d1 && isAsciiDigit d2 then
        let base := minusPart ++ run ++ ['.', d1, d2]
        match rest with
        | s :: c :: r :: rest' =>
          if pySpace s && (c = 'C' || c = 'c') && (r = 'R' || r = 'r')
              && atBoundary rest' then
            some (base ++ [s, c, r], rest')
          else if (s = 'C' || s = 'c') && (c = 'R' || c = 'r')
              && atBoundary (r :: rest') then
            some (base ++ [s, c], r :: rest')
          else if atBoundary rest then some (base, rest)
          else none
        | [s, c] =>
          if (s = 'C' || s = 'c') && (c = 'R' || c = 'r') then
            some (base ++ [s, c], [])
          else if atBoundary rest then some (base, rest)
          else none
        | _ => if atBoundary rest then some (base, rest) else none
      else none
    | _ => none

def amtMatch (cs : List Char) : Option (List Char × List Char) :=
  match cs with
  | '-' :: rest => amtMatchCore ['-'] rest
  | _ => amtMatchCore [] cs

/-- `\s+` then the amount group then `\b`: the separator must be the
maximal whitespace run (the amount cannot start with whitespace). -/
def sepAmt (cs : List Char) : Option (List Char × List Char) :=
  match plusSpaces cs with
  | none => none
  | some rest => amtMatch rest

/-- The lazy tail `(.*?)\s+<amount>\b`: try description prefixes shortest
first (`.` does not match a newline).  `acc` holds the description so far,
reversed.  Returns (description, amount token). -/
def tailFrom (acc : List Char) (cs : List Char) : Option (List Char × List Char) :=
  match sepAmt cs, cs with
  | some p, _ => some (acc.reverse, p.1)
  | none, [] => none
  | none, c :: rest => if c = '\n' then none else tailFrom (c :: acc) rest

/-- `_BMO_TRANS.match(line)`: groups 1–4 on success.  The `\s+` after
group 1 may take only its maximal run (group 2 must start with a
letter), but the `\s+` after group 2 is backtracked through all run
lengths, since the lazy description that follows can match whitespace. -/
def bmoTransMatch (line : String) : Option (String × String × String × String) :=
  firstSome (fun g1 =>
      match plusSpaces g1.2 with
      | none => none
      | some r2 =>
        firstSome (fun g2 =>
            firstSome (fun r3 =>
                match tailFrom [] r3 with
                | none => none
                | some (desc, amt) =>
                  some ((⟨g1.1⟩ : String), (⟨g2.1⟩ : String),
                        (⟨desc⟩ : String), (⟨amt⟩ : String)))
              (plusSpacesCands g2.2))
          (dateTokCands r2))
    (dateTokCands line.toList)

-- ── BMO parser functions ─────────────────────────────────────────────────

def isAsciiLower (c : Char) : Bool := 97 ≤ c.toNat && c.toNat ≤ 122
def isAsciiUpper (c : Char) : Bool := 65 ≤ c.toNat && c.toNat ≤ 90

-- _BMO_DATE = re.compile(r"([a-zA-Z]+)\s+\d{1,2},\s+(\d{4})", re.I)
-- Search with captures.  The letter run and both whitespace runs are
-- forced maximal (the following atom rejects the character a shorter run
-- would stop on); the 1-or-2-digit day is tried greedily (two digits
-- first) but at most one branch can be followed by the comma.

/-- `_BMO_DATE` attempted at one start position: returns (letter run,
four-digit year). -/
def tryLongDateAt (cs : List Char) : Option (List Char × List Char) :=
  let letters := cs.takeWhile isAsciiAlpha
  if letters.isEmpty then none
  else
    match plusSpaces (cs.drop letters.length) with
    | none => none
    | some r2 =>
      let afterComma : Option (List Char) :=
        match r2 with
        | a :: b :: c :: rest =>
          if isAsciiDigit a && isAsciiDigit b && c = ',' then some rest
          else if isAsciiDigit a && b = ',' then some (c :: rest)
          else none
        | [a, b] => if isAsciiDigit a && b = ',' then some [] else none
        | _ => none
      match afterComma with
      | none => none
      | some r3 =>
        match plusSpaces r3 with
        | none => none
        | some r4 =>
          let y := r4.take 4
          if y.length = 4 && y.all isAsciiDigit then some (letters, y) else none

/-- `_BMO_DATE.search`: leftmost match. -/
def bmoDateFindL : List Char → Option (List Char × List Char)
  | [] => none
  | c :: rest =>
    match tryLongDateAt (c :: rest) with
    | some r => some r
    | none => bmoDateFindL rest

/-- `_bmo_my`: statement month/year from the filename, defaulting to the
current month/year (threaded in as `nowM`/`nowY`). -/
def bmo_my (fn : String) (nowM : Nat) (nowY : Int) : Nat × Int :=
  match bmoDateFindL fn.toList with
  | none => (nowM, nowY)
  | some (monRun, y4) =>
    let mi := (monthFromAbbr ⟨monRun.take 3⟩).getD 1
    (mi, (digitsVal y4 : Int))

-- _bmo_date: re.sub(r'\.','',tok.strip()), then
-- re.match(r'^([A-Za-z]{3})\s*(\d{1,2})$', c), then
-- strptime(f"{g1} {g2.zfill(2)}", "%b %d") (validated against year 1900).

/-- The `^([A-Za-z]{3})\s*(\d{1,2})$` split of a cleaned token. -/
def bmoTokSplit (cs : List Char) : Option (List Char × List Char) :=
  match cs with
  | a :: b :: c :: rest =>
    if isAsciiAlpha a && isAsciiAlpha b && isAsciiAlpha c then
      let ds := rest.dropWhile pySpace
      if ds.isEmpty || !ds.all isAsciiDigit || 2 < ds.length then none
      else some ([a, b, c], ds)
    else none
  | _ => none

/-- The token analysis inside `_bmo_date`: strip, remove dots, split into
month abbreviation and day digits, resolve the month name. -/
def bmoTokParse (tok : String) : Option (Nat × Nat) :=
  match bmoTokSplit ((pyStripL tok.toList).filter (· ≠ '.')) with
  | none => none
  | some (mon, ds) =>
    match monthFromAbbr ⟨mon⟩ with
    | none => none
    | some m => some (m, digitsVal ds)

/-- `_bmo_date(tok, sm, sy)`: resolve a month/day token against the
statement anchor; on any parse failure the raw token is returned. -/
def bmo_date (tok : String) (sm : Nat) (sy : Int) : String :=
  match bmoTokParse tok with
  | none => tok
  | some (m, d) =>
    if 1 ≤ d ∧ d ≤ daysIn1900 m then
      let yr := if m = 12 ∧ sm = 1 then sy - 1
                else if m = 1 ∧ sm = 12 then sy + 1 else sy
      isoRender yr m d
    else tok

-- _bmo_amt

/-- `float(s)` for an unsigned plain decimal string, in integer cents;
`none` models `ValueError` (and numerals with more than two fractional
digits, which the program never produces, are out of the modelled
domain). -/
def pyFloatMag (cs1 : List Char) : Option Int :=
  let ip := cs1.takeWhile isAsciiDigit
  let rest := cs1.drop ip.length
  match rest with
  | [] => if ip.isEmpty then none else some ((digitsVal ip * 100 : Nat) : Int)
  | '.' :: fr =>
    if ip.isEmpty && fr.isEmpty then none
    else if !fr.all isAsciiDigit then none
    else
      match fr with
      | [] => some ((digitsVal ip * 100 : Nat) : Int)
      | [f1] => some ((digitsVal ip * 100 + digitVal f1 * 10 : Nat) : Int)
      | [f1, f2] =>
        some ((digitsVal ip * 100 + digitVal f1 * 10 + digitVal f2 : Nat) : Int)
      | _ => none
  | _ => none

/-- `float(s)` for plain decimal strings with an optional sign. -/
def pyFloatCents (cs : List Char) : Option Int :=
  match cs with
  | '-' :: r => (pyFloatMag r).map (fun v => -v)
  | '+' :: r => pyFloatMag r
  | _ => pyFloatMag cs

/-- `str.replace("CR", "")` (left-to-right, non-overlapping). -/
def removeCRL : List Char → List Char
  | [] => []
  | 'C' :: 'R' :: rest => removeCRL rest
  | c :: cs => c :: removeCRL cs

/-- `_bmo_amt(s)`: strip separators and currency sign, detect the CR
marker, parse the numeral; CR yields the parsed value, otherwise its
negation.  `none` models the `float` call raising. -/
def bmo_amt (s : String) : Option Int :=
  let s1 := pyStripL ((s.toList.filter (· ≠ ',')).filter (· ≠ '$'))
  let u := upperL s1
  let cr := hasSubL u ['C', 'R']
  match pyFloatCents (pyStripL (removeCRL u)) with
  | none => none
  | some n => some (if cr then n else -n)

/-- Shape of the optional `(?:\s?CR)?` suffix of a matched amount token. -/
def CRsuf (suf : List Char) : Prop :=
  suf = [] ∨
  (∃ c r, suf = [c, r] ∧ (c = 'C' ∨ c = 'c') ∧ (r = 'R' ∨ r = 'r')) ∨
  (∃ s c r, suf = [s, c, r] ∧ pySpace s = true ∧ (c = 'C' ∨ c = 'c') ∧
    (r = 'R' ∨ r = 'r'))

/-- Shape of any token produced by the amount group
`-?[\d,]+\.\d{2}(?:\s?CR)?` of `_BMO_TRANS`. -/
def AmtShape (tok : List Char) : Prop :=
  ∃ mp run d1 d2 suf,
    tok = mp ++ run ++ '.' :: d1 :: d2 :: suf ∧
    (mp = [] ∨ mp = ['-']) ∧
    run ≠ [] ∧ (∀ c ∈ run, isAsciiDigit c = true ∨ c = ',') ∧
    isAsciiDigit d1 = true ∧ isAsciiDigit d2 = true ∧ CRsuf suf

/-- `_bmo_isref(t)`: `\d{8,}` or `\d{2,}-[\d-]{4,}`, full match on the
stripped token. -/
def bmo_isref (t : String) : Bool :=
  let cs := pyStripL t.toList
  (decide (8 ≤ cs.length) && cs.all isAsciiDigit) ||
  (let ds := cs.takeWhile isAsciiDigit
   decide (2 ≤ ds.length) &&
     (match cs.drop ds.length with
      | '-' :: tl => decide (4 ≤ tl.length) && tl.all (fun c => isAsciiDigit c || c = '-')
      | _ => false))

/-- One `re.sub` pass for a two-character pattern `(p)(q)` replaced by
`\1 \2`: scanning resumes after each match. -/
def subPair (p q : Char → Bool) : List Char → List Char
  | a :: b :: rest =>
    if p a && q b then a :: ' ' :: b :: subPair p q rest
    else a :: subPair p q (b :: rest)
  | l => l

/-- `_bmo_human(d)`: re-insert spaces at lower→upper, letter→digit and
digit→letter boundaries, then collapse whitespace. -/
def bmo_human (d : String) : String :=
  let l1 := subPair isAsciiLower isAsciiUpper d.toList
  let l2 := subPair isAsciiAlpha isAsciiDigit l1
  let l3 := subPair isAsciiDigit isAsciiAlpha l2
  collapseWs ⟨l3⟩

/-- `_bmo_fmt(p)`: "legacy" when page one's text, upper-cased and with
spaces removed, contains "REFERENCENO"; any failure yields "modern". -/
def bmo_fmt (d : PDoc) : String :=
  match openPages d with
  | .error _ => "modern"
  | .ok [] => "modern"
  | .ok (pg :: _) =>
    match pg.textRes with
    | .error _ => "modern"
    | .ok t0 =>
      let t := (upperL (t0.getD "").toList).filter (· ≠ ' ')
      if hasSubL t "REFERENCENO".toList then "legacy" else "modern"

/-- The body of `parse_bmo`'s line loop. -/
def bmoLine (fmt : String) (sm : Nat) (sy : Int) (rows : List Tx) (line : String) :
    Except String (List Tx) :=
  match bmoTransMatch (pyStrip line) with
  | none => .ok rows
  | some (g1, _g2, g3, g4) =>
    let desc0 := pyStrip g3
    let desc :=
      if fmt = "legacy" then
        let parts := pySplit desc0
        let desc1 :=
          match parts.getLast? with
          | some lastTok =>
            if bmo_isref lastTok then pyStrip (strIntercalate " " parts.dropLast)
            else desc0
          | none => desc0
        bmo_human desc1
      else desc0
    match bmo_amt g4 with
    | none => .error "could not convert string to float"
    | some a =>
      .ok (rows ++ [{ Date := bmo_date g1 sm sy, Description := desc, Amount := a }])

/-- `parse_bmo(p)`. -/
def parse_bmo (doc : PDoc) (p : String) (nowM : Nat) (nowY : Int) :
    Except String (List Tx) := do
  let my := bmo_my (pathName p) nowM nowY
  let fmt := bmo_fmt doc
  let pages ← openPages doc
  pages.foldlM (fun rows page => do
    let t0 ← page.textRes
    (pySplitlines (t0.getD "")).foldlM (bmoLine fmt my.1 my.2) rows) []

-- ── Account detection ────────────────────────────────────────────────────

/-- `re.search(r'A.*B', s)` existence: an occurrence of `a` followed,
with no intervening newline (`.` does not match `\n`), by `b`. -/
def gapSubL (hay a b : List Char) : Bool :=
  (startsWithL hay a && hasSubL ((hay.drop a.length).takeWhile (· ≠ '\n')) b) ||
    (match hay with
     | [] => false
     | _ :: t => gapSubL t a b)

def gapSub (hay a b : String) : Bool := gapSubL hay.toList a.toList b.toList

/-- `re.search(r'A.*(ALL.INCLUSIVE-style)')`: `a` then later `b`, one
arbitrary non-newline character, then `c`. -/
def dotOneSubL (hay b c : List Char) : Bool :=
  (startsWithL hay b &&
    (match hay.drop b.length with
     | x :: rest => x ≠ '\n' && startsWithL rest c
     | [] => false)) ||
    (match hay with
     | [] => false
     | _ :: t => dotOneSubL t b c)

/-- `A.*ALL.INCLUSIVE` style: `a` then, newline-free, `b` `.` `c`. -/
def gapDotOneSubL (hay a b c : List Char) : Bool :=
  (startsWithL hay a && dotOneSubL ((hay.drop a.length).takeWhile (· ≠ '\n')) b c) ||
    (match hay with
     | [] => false
     | _ :: t => gapDotOneSubL t a b c)

/-- The `\bTD\b` scan at non-initial positions: `prev` is the character
just before the remainder. -/
def wordTDSubAfter (prev : Char) : List Char → Bool
  | c :: d :: rest =>
    (!isWordChar prev && c = 'T' && d = 'D' &&
      (match rest with
       | [] => true
       | e :: _ => !isWordChar e)) ||
    wordTDSubAfter c (d :: rest)
  | _ => false

/-- `re.search(r'\bTD\b', s)` (ASCII `\w`). -/
def wordTDSubL : List Char → Bool
  | [] => false
  | [_] => false  -- "TD" needs two characters
  | c :: d :: rest =>
    (c = 'T' && d = 'D' && (match rest with
      | [] => true
      | e :: _ => !isWordChar e)) ||
    wordTDSubAfter c (d :: rest)

/-- `[_-]\d{4}\.pdf$` / `_\d{4}\.pdf$` (re.I): four digits and a `.pdf`
suffix preceded by an allowed separator. -/
def sepDigits4Pdf (fn : String) (seps : List Char) : Bool :=
  let cs := fn.toList
  let n := cs.length
  decide (9 ≤ n) &&
    (match cs.drop (n - 9) with
     | [s, d1, d2, d3, d4, dot, p, df, f] =>
       seps.contains s && isAsciiDigit d1 && isAsciiDigit d2 && isAsciiDigit d3 &&
         isAsciiDigit d4 && dot = '.' && p.toLower = 'p' && df.toLower = 'd' &&
         f.toLower = 'f'
     | _ => false)

/-- `re.search(r'[a-zA-Z]+\s+\d{1,2},\s+\d{4}', fn)` (the long-form date
test shared by the BMO filename detectors; same pattern as `_BMO_DATE`). -/
def longDateHit (fn : String) : Bool :=
  (bmoDateFindL fn.toList).isSome

-- ACCOUNT_PATTERNS: the ordered (name, filename-predicate) list.

/-- `MC1785|BMO.*CAD|CAD.*BMO` (re.I) together with the long-form date. -/
def patBmoCad (fn : String) : Bool :=
  let u := upperS fn
  (hasSub u "MC1785" || gapSub u "BMO" "CAD" || gapSub u "CAD" "BMO") &&
    longDateHit fn

/-- `USD|US.*MC|BMO.*USD` (re.I) together with the long-form date. -/
def patBmoUs (fn : String) : Bool :=
  let u := upperS fn
  (hasSub u "USD" || gapSub u "US" "MC" || gapSub u "BMO" "USD") &&
    longDateHit fn

/-- `TD.*(CC|Visa|Credit)` (re.I) with a `[_-]\d{4}\.pdf$` suffix. -/
def patTdCc (fn : String) : Bool :=
  let u := upperS fn
  (gapSub u "TD" "CC" || gapSub u "TD" "VISA" || gapSub u "TD" "CREDIT") &&
    sepDigits4Pdf fn ['_', '-']

/-- `TD.*(Chk|Check|All.Inclusive|Saving)` (re.I) with a `_\d{4}\.pdf$`
suffix. -/
def patTdChk (fn : String) : Bool :=
  let u := upperS fn
  (gapSub u "TD" "CHK" || gapSub u "TD" "CHECK" ||
     gapDotOneSubL u.toList "TD".toList "ALL".toList "INCLUSIVE".toList ||
     gapSub u "TD" "SAVING") &&
    sepDigits4Pdf fn ['_']

def ACCOUNT_PATTERNS : List (String × (String → Bool)) :=
  [("BMO CAD Credit Card", patBmoCad),
   ("BMO US Credit Card", patBmoUs),
   ("TD CAD Credit Card", patTdCc),
   ("TD CAD Checking", patTdChk)]

def KEYWORD_MAP : List (String × String) :=
  [("bmo cad", "BMO CAD Credit Card"),
   ("bmo usd", "BMO US Credit Card"),
   ("bmo us", "BMO US Credit Card"),
   ("td cc", "TD CAD Credit Card"),
   ("td credit", "TD CAD Credit Card"),
   ("td checking", "TD CAD Checking"),
   ("td chk", "TD CAD Checking")]

/-- `detect_account(filepath, hint)`. -/
def detect_account (filepath : String) (hint : Option String) : Option String :=
  let fn := pathName filepath
  let fnU := upperS fn
  let hintRes : Option String :=
    match hint with
    | none => none
    | some h0 =>
      if h0 = "" then none  -- `if hint:` — empty string is falsy
      else
        let h := lowerS h0
        match KEYWORD_MAP.find? (fun kv => hasSub h kv.1) with
        | some kv => some kv.2
        | none =>
          ((ACCOUNT_PATTERNS.find? (fun nv => hasSub (lowerS nv.1) h)).map (·.1))
  match hintRes with
  | some v => some v
  | none =>
    match ACCOUNT_PATTERNS.find? (fun nv => nv.2 fn) with
    | some nv => some nv.1
    | none =>
      if hasSub fnU "BMO" then
        if hasSub fnU "US" || hasSub fnU "USD" then some "BMO US Credit Card"
        else some "BMO CAD Credit Card"
      else if wordTDSubL fnU.toList then
        if hasSub fnU "CHK" || hasSub fnU "CHECK" || hasSub fnU "SAVING" ||
            dotOneSubL fnU.toList "ALL".toList "INCLUSIVE".toList then
          some "TD CAD Checking"
        else some "TD CAD Credit Card"
      else none

-- ── TD parser functions ──────────────────────────────────────────────────

/-- Stable insertion into an already-ordered list: `x` goes after every
element `y` with `le y x`. -/
def stableIns {α : Type} (le : α → α → Bool) (x : α) : List α → List α
  | [] => [x]
  | y :: ys => if le y x then y :: stableIns le x ys else x :: y :: ys

/-- Stable sort (left-to-right insertion), matching Python's `sorted`. -/
def stableSort {α : Type} (le : α → α → Bool) (l : List α) : List α :=
  l.foldl (fun acc x => stableIns le x acc) []

/-- Sort key `(top, x0)` as a boolean `≤`. -/
def wordLE (v w : Word) : Bool :=
  decide (v.top < w.top) || (decide (v.top = w.top) && decide (v.x0 ≤ w.x0))

/-- Sort key `x0` as a boolean `≤`. -/
def wordXLE (v w : Word) : Bool := decide (v.x0 ≤ w.x0)

/-- `_td_up(page, xt)`: the page's words at the given x-tolerance,
keeping only upright ones. -/
def td_up (page : Page) (xt : Int) : Except String (List Word) :=
  match page.wordsRes xt with
  | .error e => .error e
  | .ok ws => .ok (ws.filter (·.upright))

/-- The grouping loop of `_td_lines`: `ct` anchors the current line at
its first word's top. -/
def tdLinesGo (yt : Int) (words : List Word) : List (List Word) :=
  let st := words.foldl
    (fun (st : List (List Word) × List Word × Option Int) w =>
      let ct := st.2.2.getD w.top
      if ((w.top - ct).natAbs : Int) ≤ yt then (st.1, st.2.1 ++ [w], some ct)
      else ((if st.2.1.isEmpty then st.1 else st.1 ++ [st.2.1]), [w], some w.top))
    ([], [], none)
  if st.2.1.isEmpty then st.1 else st.1 ++ [st.2.1]

/-- `_td_lines(words, yt)`: sort by `(top, x0)` (stably) and group into
visual lines. -/
def td_lines (yt : Int) (words : List Word) : List (List Word) :=
  tdLinesGo yt (stableSort wordLE words)

-- _td_my: two filename patterns tried in order; on a regex hit whose
-- month abbreviation fails to parse, fall through (the `except: pass`).

/-- One attempt of `[-_]([a-zA-Z]{3})_\d{1,2}[_-](\d{4})\.pdf$` (or the
variant with fixed separators) at a start position.  `sep1`/`sep2` give
the separators the variant allows. -/
def tdMyAt (sep1 sep2 : List Char) (cs : List Char) : Option (List Char × List Char) :=
  match cs with
  | s0 :: a :: b :: c :: '_' :: rest =>
    if sep1.contains s0 && isAsciiAlpha a && isAsciiAlpha b && isAsciiAlpha c then
      let tryTail : List Char → Option (List Char) := fun r =>
        match r with
        | s1 :: y1 :: y2 :: y3 :: y4 :: '.' :: p :: d :: f :: tl =>
          if sep2.contains s1 && isAsciiDigit y1 && isAsciiDigit y2 &&
              isAsciiDigit y3 && isAsciiDigit y4 && p.toLower = 'p' &&
              d.toLower = 'd' && f.toLower = 'f' && tl.isEmpty then
            some [y1, y2, y3, y4]
          else none
        | _ => none
      match rest with
      | d1 :: d2 :: r2 =>
        if isAsciiDigit d1 && isAsciiDigit d2 then
          match tryTail r2 with
          | some y => some ([a, b, c], y)
          | none => if isAsciiDigit d1 then (tryTail (d2 :: r2)).map ([a, b, c], ·) else none
        else if isAsciiDigit d1 then (tryTail (d2 :: r2)).map ([a, b, c], ·)
        else none
      | _ => none
    else none
  | _ => none

/-- Leftmost search for a `_td_my` filename pattern. -/
def tdMyFindL (sep1 sep2 : List Char) : List Char → Option (List Char × List Char)
  | [] => none
  | c :: rest =>
    match tdMyAt sep1 sep2 (c :: rest) with
    | some r => some r
    | none => tdMyFindL sep1 sep2 rest

/-- Second pattern of `_td_my`: `_([a-zA-Z]{3})_\d{1,2}-(\d{4})\.pdf$`. -/
def td_my2 (fn : String) (nowM : Nat) (nowY : Int) : Nat × Int :=
  match tdMyFindL ['_'] ['-'] fn.toList with
  | some (mon, y4) =>
    match monthFromAbbr ⟨mon⟩ with
    | some m => (m, (digitsVal y4 : Int))
    | none => (nowM, nowY)
  | none => (nowM, nowY)

/-- `_td_my(fn)`: statement month/year from the filename. -/
def td_my (fn : String) (nowM : Nat) (nowY : Int) : Nat × Int :=
  match tdMyFindL ['-', '_'] ['_', '-'] fn.toList with
  | some (mon, y4) =>
    match monthFromAbbr ⟨mon⟩ with
    | some m => (m, (digitsVal y4 : Int))
    | none => td_my2 fn nowM nowY
  | none => td_my2 fn nowM nowY

-- _td_date: strptime(raw, "%b%d") against year 1900.

/-- `%d`'s regex (`3[01]|[12]\d|0[1-9]|[1-9]| [1-9]`), full match. -/
def dayShapeParse : List Char → Option Nat
  | ['3', c] => if c = '0' || c = '1' then some (30 + digitVal c) else none
  | [c, d] =>
    if (c = '1' || c = '2') && isAsciiDigit d then some (digitVal c * 10 + digitVal d)
    else if c = '0' && isAsciiDigit d && d ≠ '0' then some (digitVal d)
    else if c = ' ' && isAsciiDigit d && d ≠ '0' then some (digitVal d)
    else none
  | [c] => if isAsciiDigit c && c ≠ '0' then some (digitVal c) else none
  | _ => none

/-- The `"%b%d"` full-match analysis inside `_td_date`. -/
def tdTokParse (raw : String) : Option (Nat × Nat) :=
  match raw.toList with
  | a :: b :: c :: rest =>
    match monthFromAbbr ⟨[a, b, c]⟩ with
    | none => none
    | some m =>
      match dayShapeParse rest with
      | none => none
      | some d => some (m, d)
  | _ => none

/-- `_td_date(raw, sm, sy)`: resolve `%b%d` against the anchor; on any
parse failure return the raw token. -/
def td_date (raw : String) (sm : Nat) (sy : Int) : String :=
  match tdTokParse raw with
  | none => raw
  | some (m, d) =>
    if 1 ≤ d ∧ d ≤ daysIn1900 m then
      let yr := if m = 12 ∧ sm = 1 then sy - 1
                else if m = 1 ∧ sm = 12 then sy + 1 else sy
      isoRender yr m d
    else raw

-- _td_amt: re.search(r'([\d,]+\.\d{2})', s); leftmost match, the class
-- run forced maximal (a shorter run stops on a class character where
-- `\.` is required).

/-- `([\d,]+\.\d{2})` attempted at one position. -/
def tdAmtAt (cs : List Char) : Option (List Char) :=
  let run := cs.takeWhile (fun c => isAsciiDigit c || c = ',')
  if run.isEmpty then none
  else
    match cs.drop run.length with
    | '.' :: d1 :: d2 :: _ =>
      if isAsciiDigit d1 && isAsciiDigit d2 then some (run ++ ['.', d1, d2]) else none
    | _ => none

/-- Leftmost `([\d,]+\.\d{2})` search. -/
def tdAmtFindL : List Char → Option (List Char)
  | [] => none
  | c :: rest =>
    match tdAmtAt (c :: rest) with
    | some r => some r
    | none => tdAmtFindL rest

/-- Cents of a matched `[\d,]+\.\d\d` numeral (commas removed). -/
def numCents (tok : List Char) : Int :=
  let noComma := tok.filter (· ≠ ',')
  let ip := noComma.takeWhile isAsciiDigit
  let fr := (noComma.drop ip.length).drop 1
  ((digitsVal ip * 100 +
    (match fr with
     | [f1, f2] => digitVal f1 * 10 + digitVal f2
     | _ => 0) : Nat) : Int)

/-- `_td_amt(s)`: value of the first embedded numeral, else `0.0`. -/
def td_amt (s : String) : Int :=
  match tdAmtFindL s.toList with
  | none => 0
  | some tok => numCents tok

-- The month+day regex used on the date buckets:
-- re.search(r'(JAN|FEB|MAR|APR|MAY|JUN|JUL|AUG|SEP|OCT|NOV|DEC)\s*(\d{1,2})', ds)

def MONTHS3 : List (List Char) :=
  ["JAN".toList, "FEB".toList, "MAR".toList, "APR".toList, "MAY".toList,
   "JUN".toList, "JUL".toList, "AUG".toList, "SEP".toList, "OCT".toList,
   "NOV".toList, "DEC".toList]

/-- The month+day pattern at one position: month literal, maximal
whitespace run (forced: a digit must follow), one or two digits
(greedy). -/
def tdMonthAt (cs : List Char) : Option (List Char × List Char) :=
  match MONTHS3.find? (fun m => startsWithL cs m) with
  | none => none
  | some m =>
    let r := (cs.drop 3).dropWhile pySpace
    match r with
    | d1 :: d2 :: _ =>
      if isAsciiDigit d1 then
        if isAsciiDigit d2 then some (m, [d1, d2]) else some (m, [d1])
      else none
    | [d1] => if isAsciiDigit d1 then some (m, [d1]) else none
    | [] => none

/-- Leftmost month+day search; returns (month text, day digits). -/
def tdMonthFindL : List Char → Option (List Char × List Char)
  | [] => none
  | c :: rest =>
    match tdMonthAt (c :: rest) with
    | some r => some r
    | none => tdMonthFindL rest

def tdMonthFind (s : String) : Option (String × String) :=
  (tdMonthFindL s.toList).map (fun r => ((⟨r.1⟩ : String), (⟨r.2⟩ : String)))

-- re.search(r'\d{4}\s*\d{2}XX', desc) — masked card number (case
-- sensitive; the whitespace run is forced maximal).

/-- The masked-card pattern at one position. -/
def maskedAt (cs : List Char) : Bool :=
  match cs with
  | a :: b :: c :: d :: rest =>
    if isAsciiDigit a && isAsciiDigit b && isAsciiDigit c && isAsciiDigit d then
      match rest.dropWhile pySpace with
      | e :: f :: 'X' :: 'X' :: _ => isAsciiDigit e && isAsciiDigit f
      | _ => false
    else false
  | _ => false

/-- `re.search(r'\d{4}\s*\d{2}XX', s)`. -/
def maskedSubL : List Char → Bool
  | [] => false
  | c :: rest => maskedAt (c :: rest) || maskedSubL rest

/-- `_td_type(p)`: credit card when page one carries both a TRANSACTION
and a POSTING marker; `pdf.pages[0]` raises on an empty document. -/
def td_type (doc : PDoc) : Except String String := do
  let pages ← openPages doc
  match pages with
  | [] => .error "IndexError: list index out of range"
  | pg :: _ => do
    let ws ← td_up pg 2
    let texts := ws.map (fun w => upperS w.text)
    pure (if texts.any (fun t => hasSub t "TRANSACTION") &&
             texts.any (fun t => hasSub t "POSTING") then "credit_card"
          else "checking")

-- ── TD checking layout ───────────────────────────────────────────────────

/-- Column header x-positions accumulated from the header row
(`cols` dict; later words overwrite earlier ones). -/
structure ChkCols where
  descX : Option Int := none
  withX : Option Int := none
  depX : Option Int := none
  dateX : Option Int := none
  balX : Option Int := none
deriving DecidableEq, Repr

/-- The `cols` loop of `parse_td_chk` (HT = 5). -/
def chkCols (words : List Word) (hy : Int) : ChkCols :=
  words.foldl
    (fun c w =>
      if ((w.top - hy).natAbs : Int) ≤ 5 then
        let t : String := ⟨rstripColonL (pyStripL (lowerS w.text).toList)⟩
        if strStarts t "desc" then { c with descX := some w.x0 }
        else if strStarts t "with" then { c with withX := some w.x0 }
        else if strStarts t "dep" then { c with depX := some w.x0 }
        else if strStarts t "date" then { c with dateX := some w.x0 }
        else if strStarts t "bal" then { c with balX := some w.x0 }
        else c
      else c)
    {}

/-- Right-edge boundaries for word bucketing in the checking layout. -/
structure ChkCfg where
  xde : Int
  xwe : Int
  xdpe : Int
  xdte : Int
deriving DecidableEq, Repr

/-- The four text buckets of one checking-layout row. -/
structure ChkRow where
  desc : List String := []
  withS : List String := []
  dep : List String := []
  date : List String := []
deriving DecidableEq, Repr

/-- Word bucketing for one checking-layout line. -/
def chkBucket (cfg : ChkCfg) (line : List Word) : ChkRow :=
  line.foldl
    (fun r w =>
      if w.x0 < cfg.xde then { r with desc := r.desc ++ [w.text] }
      else if w.x0 < cfg.xwe then { r with withS := r.withS ++ [w.text] }
      else if w.x0 < cfg.xdpe then { r with dep := r.dep ++ [w.text] }
      else if w.x0 < cfg.xdte then { r with date := r.date ++ [w.text] }
      else r)
    {}

def CHK_SKIP : List String :=
  ["BALANCE FORWARD", "OPENING BALANCE", "CLOSING BALANCE", "TOTAL", "DAILY CLOSING"]

/-- The body of `parse_td_chk`'s row loop. -/
def chkStep (cfg : ChkCfg) (sm : Nat) (sy : Int) (rows : List Tx) (line : List Word) :
    List Tx :=
  let r := chkBucket cfg line
  let desc := pyStrip (strIntercalate " " r.desc)
  if desc = "" ∨ CHK_SKIP.any (fun s => hasSub (upperS desc) s) then rows
  else
    let ds := upperS (strJoin r.date)
    match tdMonthFind ds with
    | none => rows
    | some dm =>
      let ws := pyStrip (strJoin r.withS)
      let dp := pyStrip (strJoin r.dep)
      let amt : Option Int :=
        if ws ≠ "" then some (-(td_amt ws))
        else if dp ≠ "" then some (td_amt dp) else none
      match amt with
      | none => rows
      | some a =>
        if a = 0 then rows
        else
          rows ++ [{ Date := td_date (dm.1 ++ zfill2 dm.2) sm sy,
                     Description := collapseWs desc,
                     Amount := a }]  -- round(amt, 2) is the identity on cents

/-- One page of `parse_td_chk` (HT = 5, GAP = 5). -/
def chkPage (sm : Nat) (sy : Int) (rows : List Tx) (page : Page) :
    Except String (List Tx) := do
  let words ← td_up page 2
  if words.isEmpty then pure rows
  else
    match words.find? (fun w => strStarts (lowerS w.text) "withdrawal") with
    | none => pure rows
    | some w0 =>
      let hy := w0.top
      let cols := chkCols words hy
      match cols.withX, cols.depX with
      | some xw, some xd =>
        let xde := xw - 5
        let xwe := xd - 5
        let xdpe := (cols.dateX.getD (xd + 80)) - 5
        let xdte := (cols.balX.getD (xdpe + 65)) - 5
        let cfg : ChkCfg := ⟨xde, xwe, xdpe, xdte⟩
        let lns := td_lines 4 (words.filter (fun w => hy + 5 < w.top))
        pure (lns.foldl (chkStep cfg sm sy) rows)
      | _, _ => pure rows  -- 'with' not in cols or 'dep' not in cols

/-- `parse_td_chk(p, sm, sy)`. -/
def parse_td_chk (doc : PDoc) (sm : Nat) (sy : Int) : Except String (List Tx) := do
  let pages ← openPages doc
  pages.foldlM (chkPage sm sy) []

-- ── TD credit-card layout ────────────────────────────────────────────────

/-- Geometry of the credit-card table on one page. -/
structure CCCfg where
  xa : Int
  xds : Int
deriving DecidableEq, Repr

/-- An accumulated raw credit-card transaction (pre date-resolution). -/
structure RawCC where
  DateRaw : String
  Description : String
  Amount : Int
deriving DecidableEq, Repr

/-- Fold state for the credit-card line loop: accumulated raw rows plus
the page-local `break` flag. -/
structure CCSt where
  raw : List RawCC
  stopped : Bool
deriving DecidableEq, Repr

/-- The three buckets of one credit-card line. -/
structure CCRow where
  tx_date : List String := []
  desc : List String := []
  amount : List Word := []
deriving DecidableEq, Repr

/-- Word bucketing for one credit-card line. -/
def ccBucket (cfg : CCCfg) (line : List Word) : CCRow :=
  line.foldl
    (fun r w =>
      if cfg.xa ≤ w.x0 then { r with amount := r.amount ++ [w] }
      else if cfg.xds ≤ w.x0 then { r with desc := r.desc ++ [w.text] }
      else if 2 * w.x0 < cfg.xds then { r with tx_date := r.tx_date ++ [w.text] }  -- w.x0 < xmid = xds / 2
      else r)
    {}

def CC_STOP : List String := ["TOTAL NEW", "TD MESSAGE"]
def CC_SKIP : List String := ["PREVIOUS STATEMENT", "STARTING BALANCE", "NET AMOUNT"]

/-- `raw[-1]["Description"] += " " + desc`. -/
def updLast (l : List RawCC) (d : String) : List RawCC :=
  match l with
  | [] => []
  | [x] => [{ x with Description := x.Description ++ " " ++ d }]
  | x :: xs => x :: updLast xs d

/-- The body of `parse_td_cc`'s line loop (including the `break` flag). -/
def ccStep (cfg : CCCfg) (st : CCSt) (line : List Word) : CCSt :=
  if st.stopped then st
  else
    let row := ccBucket cfg line
    let desc := pyStrip (strIntercalate " " row.desc)
    let ds := upperS (strJoin row.tx_date)
    let aw := stableSort wordXLE row.amount
    let ar := (aw.head?.map (fun w => w.text)).getD ""  -- aw[0]['text'] if aw else ""
    if CC_STOP.any (fun k => strStarts (upperS desc) k) then { st with stopped := true }
    else if CC_SKIP.any (fun k => strStarts (upperS desc) k) || desc = "" then st
    else if pyStrip (upperS desc) = "ACTIVITY" then st
    else if maskedSubL desc.toList then st
    else
      let dm := tdMonthFind ds
      let cr := strStarts (pyStrip ar) "-"
      let an := td_amt ar
      match dm with
      | some dmv =>
        if 0 < an then
          { st with raw := st.raw ++ [{ DateRaw := dmv.1 ++ zfill2 dmv.2,
                                        Description := desc,
                                        Amount := if cr then an else -an }] }
        else if desc ≠ "" ∧ st.raw ≠ [] then { st with raw := updLast st.raw desc }
        else st
      | none =>
        if desc ≠ "" ∧ st.raw ≠ [] then { st with raw := updLast st.raw desc }
        else st

/-- One page of `parse_td_cc` (xt = 1; header/boundary geometry). -/
def ccPage (raw : List RawCC) (page : Page) : Except String (List RawCC) := do
  let words ← td_up page 1
  if words.isEmpty then pure raw
  else
    match words.find? (fun w => hasSub (upperS w.text) "AMOUNT" && hasSub w.text "$") with
    | none => pure raw
    | some wA =>
      let hy := wA.top
      let xa := wA.x0
      let xds : Int :=
        match words.find? (fun w => ((w.top - hy).natAbs : Int) ≤ 5 &&
            (hasSub (upperS w.text) "ACTIVITY" || hasSub (upperS w.text) "DESCRIPTION")) with
        | some w => w.x0
        | none =>
          let cands := words.filter (fun w => ((w.top - hy).natAbs : Int) ≤ 5 && w.x0 < xa)
          maxD (cands.map (·.x0)) 140
      let twy := (words.filter (fun w => hy + 5 < w.top)).map
        (fun w => (upperS w.text, w.top))
      let ym : Option Int :=
        match twy.find? (fun p => p.1 = "CONTINUED") with
        | some p => some p.2
        | none =>
          match twy.find? (fun p => p.1 = "TOTAL" || p.1 = "TD") with
          | some p => some p.2
          | none => none  -- float('inf')
      let tw := words.filter (fun w => hy + 5 < w.top &&
        (match ym with
         | none => true
         | some y => w.top < y))
      let cfg : CCCfg := ⟨xa, xds⟩
      let lns := td_lines 5 tw
      pure (lns.foldl (ccStep cfg) { raw := raw, stopped := false }).raw

/-- `parse_td_cc(p, sm, sy)`. -/
def parse_td_cc (doc : PDoc) (sm : Nat) (sy : Int) : Except String (List Tx) := do
  let pages ← openPages doc
  let raw ← pages.foldlM ccPage []
  pure (raw.map (fun t =>
    { Date := td_date t.DateRaw sm sy,
      Description := collapseWs t.Description,
      Amount := t.Amount }))  -- round(t["Amount"], 2) is the identity on cents

/-- `parse_td(p)`. -/
def parse_td (doc : PDoc) (p : String) (nowM : Nat) (nowY : Int) :
    Except String (List Tx) := do
  let my := td_my (pathName p) nowM nowY
  let st ← td_type doc
  if st = "credit_card" then parse_td_cc doc my.1 my.2
  else parse_td_chk doc my.1 my.2

-- ── Orchestration (`main`) ───────────────────────────────────────────────

/-- The JSON object `main` prints: each field is `none` when the emitted
object omits it, `some none` when it is present and `null`. -/
structure POut where
  account : Option (Option String)
  filename : Option String
  transactions : Option (List Tx)
  count : Option Nat
  error : Option (Option String)
deriving DecidableEq, Repr

/-- The unresolved-account fallback in `main`: try BMO; on an empty
result try TD (defaulting the account on success); on an exception
anywhere in that block call the TD parser instead. -/
def mainFallback (account : Option String) (doc : PDoc) (pdfPath : String)
    (nowM : Nat) (nowY : Int) : Except String (Option String × List Tx) :=
  let attempt : Except String (Option String × List Tx) := do
    let ts ← parse_bmo doc pdfPath nowM nowY
    if ts.isEmpty then do
      let ts2 ← parse_td doc pdfPath nowM nowY
      pure ((if ¬ts2.isEmpty ∧ account = none then some "TD CAD Checking" else account), ts2)
    else
      pure ((if account = none then some "BMO CAD Credit Card" else account), ts)
  match attempt with
  | .ok r => .ok r
  | .error _ => (parse_td doc pdfPath nowM nowY).map (fun ts => (account, ts))

/-- `main()` for an invocation with a path argument: `fsExists` models
`Path(pdf_path).exists()`; the result pairs the emitted JSON object with
the process exit status. -/
def mainModel (pdfPath : String) (hint : Option String) (doc : PDoc)
    (fsExists : Bool) (nowM : Nat) (nowY : Int) : POut × Nat :=
  if fsExists = false then
    ({ account := none, filename := none, transactions := none, count := none,
       error := some (some ("File not found: " ++ pdfPath)) }, 1)
  else
    let fn := pathName pdfPath
    let account := detect_account pdfPath hint
    let res : Except String (Option String × List Tx) :=
      match account with
      | some acc =>
        if acc ≠ "" ∧ hasSub acc "BMO" then
          (parse_bmo doc pdfPath nowM nowY).map (fun ts => (account, ts))
        else if acc ≠ "" ∧ hasSub acc "TD" then
          (parse_td doc pdfPath nowM nowY).map (fun ts => (account, ts))
        else mainFallback account doc pdfPath nowM nowY
      | none => mainFallback account doc pdfPath nowM nowY
    match res with
    | .ok r =>
      ({ account := some r.1, filename := some fn, transactions := some r.2,
         count := some r.2.length, error := some none }, 0)
    | .error e =>
      ({ account := some none, filename := some fn, transactions := some [],
         count := some 0, error := some (some e) }, 1)

-- ── Concrete documents used by witnesses and counterexamples ─────────────

/-- Shorthand for an upright word. -/
def mkW (t : String) (x y : Int) : Word := ⟨t, x, y, true⟩

/-- A TD checking statement page: a header row and one withdrawal row.
Its `extract_text` raises, so the BMO parser fails on this document
while the TD parser succeeds. -/
def chkWordsW : List Word :=
  [mkW "Description" 10 100, mkW "Withdrawals" 200 100, mkW "Deposits" 300 100,
   mkW "Date" 400 100, mkW "Balance" 500 100,
   mkW "INTERAC" 10 120, mkW "PURCHASE" 60 120, mkW "50.00" 210 120,
   mkW "JAN15" 400 120]

def tdChkDocW : PDoc :=
  { openRes := .ok (),
    pages := [{ textRes := .error "text extraction failed",
                wordsRes := fun _ => .ok chkWordsW }] }

/-- A BMO "modern" document whose only transaction line carries the
numeral `0.00`. -/
def bmoZeroDocW : PDoc :=
  { openRes := .ok (),
    pages := [{ textRes := .ok (some "Jan 5 Jan 6 FEE REVERSAL 0.00"),
                wordsRes := fun _ => .ok [] }] }

/-- A BMO "modern" document whose transaction line's first date token,
"Abc 5", names no month. -/
def bmoAbcDocW : PDoc :=
  { openRes := .ok (),
    pages := [{ textRes := .ok (some "Abc 5 Jan 6 STORE 45.67"),
                wordsRes := fun _ => .ok [] }] }

/-- The BMO legacy document of Scenario 2. -/
def bmoLegacyDocW : PDoc :=
  { openRes := .ok (),
    pages := [{ textRes := .ok
                  (some "Reference No.\nJan.5 Jan.6 AMAZON.CAPURCHASE123456789 45.67"),
                wordsRes := fun _ => .ok [] }] }

-- ═══════════════════════════════════════════════════════════════════════
--  Theorems
-- ═══════════════════════════════════════════════════════════════════════

-- ── Generic fold lemmas ──────────────────────────────────────────────────

theorem foldlInv {α β : Type} (P : β → Prop) (f : β → α → β) :
    ∀ (l : List α) (b : β), P b → (∀ b a, P b → P (f b a)) → P (l.foldl f b)
  | [], _, hb, _ => hb
  | a :: l, b, hb, hf => foldlInv P f l (f b a) (hf b a hb) hf

theorem foldlMInv {α β : Type} (P : β → Prop) (f : β → α → Except String β) :
    ∀ (l : List α) (b r : β), l.foldlM f b = .ok r → P b →
      (∀ b a r', P b → f b a = .ok r' → P r') → P r := by
  intro l
  induction l with
  | nil =>
    intro b r h hb _
    simp only [List.foldlM_nil, pure, Except.pure] at h
    cases h
    exact hb
  | cons a l ih =>
    intro b r h hb hf
    simp only [List.foldlM_cons] at h
    cases hfa : f b a with
    | error e => rw [hfa] at h; simp [Bind.bind, Except.bind] at h
    | ok b' =>
      rw [hfa] at h
      simp only [Bind.bind, Except.bind] at h
      exact ih b' r h (hf b a b' hb hfa) hf

theorem firstSomeMem {α β : Type} (f : α → Option β) :
    ∀ (l : List α) (b : β), firstSome f l = some b → ∃ a ∈ l, f a = some b := by
  intro l
  induction l with
  | nil => intro b h; simp [firstSome] at h
  | cons a l ih =>
    intro b h
    unfold firstSome at h
    cases hfa : f a with
    | some b' =>
      rw [hfa] at h
      cases h
      exact ⟨a, List.mem_cons_self a l, hfa⟩
    | none =>
      rw [hfa] at h
      obtain ⟨x, hx, hfx⟩ := ih b h
      exact ⟨x, List.mem_cons_of_mem a hx, hfx⟩

-- ── C2 ───────────────────────────────────────────────────────────────────

/-- C2 (counterexample): for a non-existent path the emitted object does
not contain an empty `transactions` list and a zero `count` — it omits
both fields entirely (only `error` is present), with exit status 1. -/
theorem C2_cex :
    (mainModel "ghost.pdf" none bmoZeroDocW false 1 2024).1.transactions = none ∧
    (mainModel "ghost.pdf" none bmoZeroDocW false 1 2024).1.transactions ≠ some [] ∧
    (mainModel "ghost.pdf" none bmoZeroDocW false 1 2024).1.count = none ∧
    (mainModel "ghost.pdf" none bmoZeroDocW false 1 2024).1.count ≠ some 0 ∧
    (mainModel "ghost.pdf" none bmoZeroDocW false 1 2024).1.error =
      some (some "File not found: ghost.pdf") ∧
    (mainModel "ghost.pdf" none bmoZeroDocW false 1 2024).2 = 1 := by
  decide

/-- C2 (amended): for every input path that does not name an existing
file, the process emits a JSON object whose only field is a non-null
`error` (account, filename, transactions and count are all omitted), no
parser is invoked, and it exits with status 1. -/
theorem C2_amended_thm (pdfPath : String) (hint : Option String) (doc : PDoc)
    (nowM : Nat) (nowY : Int) :
    mainModel pdfPath hint doc false nowM nowY =
      ({ account := none, filename := none, transactions := none, count := none,
         error := some (some ("File not found: " ++ pdfPath)) }, 1) := by
  rfl

-- ── C3 ───────────────────────────────────────────────────────────────────

/-- C3 (counterexample): on the legacy line
`"Jan.5 Jan.6 AMAZON.CAPURCHASE123456789 45.67"` the parser's single
transaction does not carry the description "Amazon.ca Purchase": the
trailing reference digits are glued to the description token, so the
reference-stripping test never fires, and no casing is changed. -/
theorem C3_cex :
    parse_bmo bmoLegacyDocW "BMO_CAD_Jan 1, 2024.pdf" 6 2025 =
      .ok [{ Date := "2024-01-05", Description := "AMAZON.CAPURCHASE 123456789",
             Amount := -4567 }] ∧
    ("AMAZON.CAPURCHASE 123456789" : String) ≠ "Amazon.ca Purchase" := by
  decide

/-- C3 (amended): for the BMO legacy-format line
`"Jan.5 Jan.6 AMAZON.CAPURCHASE123456789 45.67"`, the parser produces a
transaction with description "AMAZON.CAPURCHASE 123456789" (the run-on
reference is not a separate token, so it is not stripped; a single space
is inserted at the letter→digit boundary) and amount −45.67. -/
theorem C3_amended_thm :
    parse_bmo bmoLegacyDocW "BMO_CAD_Jan 1, 2024.pdf" 6 2025 =
      .ok [{ Date := "2024-01-05", Description := "AMAZON.CAPURCHASE 123456789",
             Amount := -4567 }] := by
  decide

-- ── C5 ───────────────────────────────────────────────────────────────────

/-- C5: for every month/day token accepted by the BMO resolver and every
raw `%b%d` token accepted by the TD resolver (same month `m`, day `d`
valid for that month), a December token against a January anchor
resolves to the anchor year minus one, a January token against a
December anchor to the anchor year plus one, and every other
combination to the anchor year unchanged — identically for both
resolvers. -/
theorem C5_thm (tokB rawT : String) (m d sm : Nat) (sy : Int)
    (hB : bmoTokParse tokB = some (m, d))
    (hT : tdTokParse rawT = some (m, d))
    (hd : 1 ≤ d ∧ d ≤ daysIn1900 m) :
    ((m = 12 ∧ sm = 1) →
        bmo_date tokB sm sy = isoRender (sy - 1) m d ∧
        td_date rawT sm sy = isoRender (sy - 1) m d) ∧
    ((m = 1 ∧ sm = 12) →
        bmo_date tokB sm sy = isoRender (sy + 1) m d ∧
        td_date rawT sm sy = isoRender (sy + 1) m d) ∧
    (¬(m = 12 ∧ sm = 1) → ¬(m = 1 ∧ sm = 12) →
        bmo_date tokB sm sy = isoRender sy m d ∧
        td_date rawT sm sy = isoRender sy m d) := by
  unfold bmo_date td_date
  rw [hB, hT]
  dsimp only
  rw [if_pos hd, if_pos hd]
  refine ⟨fun h => ?_, fun h => ?_, fun h1 h2 => ?_⟩
  · rw [if_pos h]
    exact ⟨rfl, rfl⟩
  · have hne : ¬(m = 12 ∧ sm = 1) := by
      rintro ⟨h12, _⟩
      omega
    rw [if_neg hne, if_pos h]
    exact ⟨rfl, rfl⟩
  · rw [if_neg h1, if_neg h2]
    exact ⟨rfl, rfl⟩

/-- C5 (witness): the BMO token "Dec 15" and TD token "DEC15" against a
January-2024 anchor both resolve to 2023-12-15. -/
theorem C5_witness :
    bmo_date "Dec 15" 1 2024 = "2023-12-15" ∧ td_date "DEC15" 1 2024 = "2023-12-15" := by
  have h := (C5_thm "Dec 15" "DEC15" 12 15 1 2024 (by decide) (by decide)
    (by decide)).1 ⟨rfl, rfl⟩
  exact ⟨h.1.trans (by decide), h.2.trans (by decide)⟩

-- ── C7 ───────────────────────────────────────────────────────────────────

/-- C7 (counterexample): the hint "bmo cad td checking" contains the
substring "td checking", yet the detector resolves it to the BMO CAD
identity, because the keyword map is scanned in insertion order and
"bmo cad" is tested first. -/
theorem C7_cex :
    hasSub (lowerS "bmo cad td checking") "td checking" = true ∧
    detect_account "whatever.pdf" (some "bmo cad td checking") =
      some "BMO CAD Credit Card" ∧
    (some "BMO CAD Credit Card" : Option String) ≠ some "TD CAD Checking" := by
  decide

/-- C7 (amended): for every filepath and every hint whose lower-casing
contains "td checking" but none of the keyword-map entries tested before
it ("bmo cad", "bmo usd", "bmo us", "td cc", "td credit"),
AccountDetector resolves to "TD CAD Checking", regardless of the
filename. -/
theorem C7_amended_thm (filepath hint : String)
    (h1 : hasSub (lowerS hint) "td checking" = true)
    (h2 : hasSub (lowerS hint) "bmo cad" = false)
    (h3 : hasSub (lowerS hint) "bmo usd" = false)
    (h4 : hasSub (lowerS hint) "bmo us" = false)
    (h5 : hasSub (lowerS hint) "td cc" = false)
    (h6 : hasSub (lowerS hint) "td credit" = false) :
    detect_account filepath (some hint) = some "TD CAD Checking" := by
  have hne : ¬hint = "" := by
    rintro rfl
    exact absurd h1 (by decide)
  unfold detect_account
  simp only [KEYWORD_MAP, List.find?, h1, h2, h3, h4, h5, h6, if_neg hne]

/-- C7 (witness): hint "TD Checking acct" on a BMO-named file resolves
to the TD checking identity. -/
theorem C7_amended_witness :
    detect_account "BMO_statement.pdf" (some "TD Checking acct") =
      some "TD CAD Checking" :=
  C7_amended_thm "BMO_statement.pdf" "TD Checking acct" (by decide) (by decide)
    (by decide) (by decide) (by decide) (by decide)

-- ── C6 / C8 helper lemmas ────────────────────────────────────────────────

theorem updLast_length (d : String) : ∀ l : List RawCC, (updLast l d).length = l.length
  | [] => rfl
  | [_] => rfl
  | _ :: y :: ys => by
    simp only [updLast, List.length_cons]
    have := updLast_length d (y :: ys)
    simp only [List.length_cons] at this
    omega

theorem td_amt_nonneg (s : String) : 0 ≤ td_amt s := by
  unfold td_amt
  cases h : tdAmtFindL s.toList with
  | none => simp
  | some tok =>
    simp only [numCents]
    exact Int.natCast_nonneg _

-- ── C6 ───────────────────────────────────────────────────────────────────

/-- C6: in the TD credit-card layout, a candidate line (one that passes
the stop/skip/header/masked-card filters and lies between the header and
the end-of-table boundary, i.e. is fed to the accumulation step with the
page not yet stopped) becomes a new transaction if and only if its date
field matches the month+day pattern and its parsed amount is strictly
positive; otherwise, its (non-empty) description is appended,
space-joined, to the most recently accumulated transaction when one
exists, and the line is dropped when none exists. -/
theorem C6_thm (cfg : CCCfg) (st : CCSt) (line : List Word)
    (hrun : st.stopped = false)
    (hstop : CC_STOP.any
      (fun k => strStarts (upperS (pyStrip (strIntercalate " " (ccBucket cfg line).desc))) k) = false)
    (hskip : CC_SKIP.any
      (fun k => strStarts (upperS (pyStrip (strIntercalate " " (ccBucket cfg line).desc))) k) = false)
    (hdesc : pyStrip (strIntercalate " " (ccBucket cfg line).desc) ≠ "")
    (hact : pyStrip (upperS (pyStrip (strIntercalate " " (ccBucket cfg line).desc))) ≠ "ACTIVITY")
    (hmask : maskedSubL (pyStrip (strIntercalate " " (ccBucket cfg line).desc)).toList = false) :
    let desc := pyStrip (strIntercalate " " (ccBucket cfg line).desc)
    let ds := upperS (strJoin (ccBucket cfg line).tx_date)
    let ar := (((stableSort wordXLE (ccBucket cfg line).amount).head?.map
      (fun w => w.text)).getD "")
    (((ccStep cfg st line).raw.length = st.raw.length + 1) ↔
        ((tdMonthFind ds).isSome = true ∧ 0 < td_amt ar)) ∧
    (∀ mon day, tdMonthFind ds = some (mon, day) → 0 < td_amt ar →
        (ccStep cfg st line).raw =
          st.raw ++ [{ DateRaw := mon ++ zfill2 day, Description := desc,
                       Amount := if strStarts (pyStrip ar) "-" then td_amt ar
                                 else -(td_amt ar) }]) ∧
    (¬((tdMonthFind ds).isSome = true ∧ 0 < td_amt ar) → st.raw ≠ [] →
        (ccStep cfg st line).raw = updLast st.raw desc) ∧
    (¬((tdMonthFind ds).isSome = true ∧ 0 < td_amt ar) → st.raw = [] →
        (ccStep cfg st line).raw = st.raw) := by
  intro desc ds ar
  have hstep : ccStep cfg st line =
      (match tdMonthFind ds with
       | some dmv =>
         if 0 < td_amt ar then
           { st with raw := st.raw ++ [{ DateRaw := dmv.1 ++ zfill2 dmv.2,
                                         Description := desc,
                                         Amount := if strStarts (pyStrip ar) "-" then td_amt ar
                                                   else -(td_amt ar) }] }
         else if desc ≠ "" ∧ st.raw ≠ [] then { st with raw := updLast st.raw desc }
         else st
       | none =>
         if desc ≠ "" ∧ st.raw ≠ [] then { st with raw := updLast st.raw desc }
         else st) := by
    unfold ccStep
    rw [hrun]
    simp only [Bool.false_eq_true, if_false, hstop, hskip, hact, hmask, hdesc,
      if_false]
    split
    · simp_all
    · split
      · simp_all
      · split
        · simp_all
        · split
          · simp_all
          · rfl
  refine ⟨?_, ?_, ?_, ?_⟩
  · rw [hstep]
    cases hdm : tdMonthFind ds with
    | some dmv =>
      dsimp only
      by_cases han : 0 < td_amt ar
      · rw [if_pos han]
        simp [han]
      · rw [if_neg han]
        constructor
        · intro hlen
          by_cases hr : desc ≠ "" ∧ st.raw ≠ []
          · rw [if_pos hr] at hlen
            simp only [updLast_length] at hlen
            omega
          · rw [if_neg hr] at hlen
            omega
        · rintro ⟨-, h2⟩
          exact absurd h2 han
    | none =>
      dsimp only
      simp only [Option.isSome_none, Bool.false_eq_true, false_and, iff_false]
      intro hlen
      by_cases hr : desc ≠ "" ∧ st.raw ≠ []
      · rw [if_pos hr] at hlen
        simp only [updLast_length] at hlen
        omega
      · rw [if_neg hr] at hlen
        omega
  · intro mon day hdm han
    rw [hstep, hdm]
    simp [han]
  · intro hnot hne
    rw [hstep]
    cases hdm : tdMonthFind ds with
    | some dmv =>
      have han : ¬0 < td_amt ar := fun h => hnot ⟨by rw [hdm]; rfl, h⟩
      dsimp only
      rw [if_neg han, if_pos ⟨hdesc, hne⟩]
    | none =>
      dsimp only
      rw [if_pos ⟨hdesc, hne⟩]
  · intro hnot hnil
    have hcon : ¬(desc ≠ "" ∧ st.raw ≠ []) := by
      rintro ⟨-, hr⟩
      exact hr hnil
    rw [hstep]
    cases hdm : tdMonthFind ds with
    | some dmv =>
      have han : ¬0 < td_amt ar := fun h => hnot ⟨by rw [hdm]; rfl, h⟩
      dsimp only
      rw [if_neg han, if_neg hcon]
    | none =>
      dsimp only
      rw [if_neg hcon]

/-- C6 (witness): with raw row ["JAN03"/"COFFEE SHOP"] accumulated, a
description-only continuation line is appended to it, and a dated line
with a positive amount becomes a new transaction. -/
theorem C6_witness :
    (ccStep ⟨400, 140⟩ { raw := [⟨"JAN03", "COFFEE SHOP", -350⟩], stopped := false }
        [mkW "EXTRA" 150 140, mkW "WRAPPED" 200 140]).raw =
      [⟨"JAN03", "COFFEE SHOP EXTRA WRAPPED", -350⟩] ∧
    (ccStep ⟨400, 140⟩ { raw := [⟨"JAN03", "COFFEE SHOP", -350⟩], stopped := false }
        [mkW "JAN4" 20 160, mkW "PAYMENT" 150 160, mkW "-$20.00" 410 160]).raw =
      [⟨"JAN03", "COFFEE SHOP", -350⟩, ⟨"JAN04", "PAYMENT", 2000⟩] := by
  constructor
  · have h := (C6_thm ⟨400, 140⟩
      { raw := [⟨"JAN03", "COFFEE SHOP", -350⟩], stopped := false }
      [mkW "EXTRA" 150 140, mkW "WRAPPED" 200 140]
      (by decide) (by decide) (by decide) (by decide) (by decide) (by decide)).2.2.1
      (by decide) (by decide)
    exact h.trans (by decide)
  · have h := (C6_thm ⟨400, 140⟩
      { raw := [⟨"JAN03", "COFFEE SHOP", -350⟩], stopped := false }
      [mkW "JAN4" 20 160, mkW "PAYMENT" 150 160, mkW "-$20.00" 410 160]
      (by decide) (by decide) (by decide) (by decide) (by decide) (by decide)).2.1
      "JAN" "4" (by decide) (by decide)
    exact h.trans (by decide)

-- ── C8 ───────────────────────────────────────────────────────────────────

/-- C8: in the TD checking layout, for every row that passes the
description filters and whose date field matches the month+day pattern:
when the withdrawal field is non-empty the signed amount is the negation
of its value (the row is appended unless that value is zero); otherwise,
when the deposit field is non-empty, the signed amount is its
(non-negative) value (appended unless zero); rows with neither field, or
with a zero amount, are discarded and produce no transaction. -/
theorem C8_thm (cfg : ChkCfg) (sm : Nat) (sy : Int) (rows : List Tx) (line : List Word)
    (hdesc : pyStrip (strIntercalate " " (chkBucket cfg line).desc) ≠ "")
    (hskip : CHK_SKIP.any
      (fun s => hasSub (upperS (pyStrip (strIntercalate " " (chkBucket cfg line).desc))) s)
        = false) :
    let desc := pyStrip (strIntercalate " " (chkBucket cfg line).desc)
    let ws := pyStrip (strJoin (chkBucket cfg line).withS)
    let dp := pyStrip (strJoin (chkBucket cfg line).dep)
    ∀ mon day,
      tdMonthFind (upperS (strJoin (chkBucket cfg line).date)) = some (mon, day) →
      (ws ≠ "" → td_amt ws ≠ 0 →
          chkStep cfg sm sy rows line =
            rows ++ [{ Date := td_date (mon ++ zfill2 day) sm sy,
                       Description := collapseWs desc, Amount := -(td_amt ws) }]) ∧
      (ws ≠ "" → td_amt ws = 0 → chkStep cfg sm sy rows line = rows) ∧
      (ws = "" → dp ≠ "" → td_amt dp ≠ 0 →
          0 < td_amt dp ∧
          chkStep cfg sm sy rows line =
            rows ++ [{ Date := td_date (mon ++ zfill2 day) sm sy,
                       Description := collapseWs desc, Amount := td_amt dp }]) ∧
      (ws = "" → dp ≠ "" → td_amt dp = 0 → chkStep cfg sm sy rows line = rows) ∧
      (ws = "" → dp = "" → chkStep cfg sm sy rows line = rows) := by
  intro desc ws dp mon day hdm
  have hstep : chkStep cfg sm sy rows line =
      (match (if ws ≠ "" then some (-(td_amt ws))
              else if dp ≠ "" then some (td_amt dp) else none) with
       | none => rows
       | some a =>
         if a = 0 then rows
         else rows ++ [{ Date := td_date (mon ++ zfill2 day) sm sy,
                         Description := collapseWs desc, Amount := a }]) := by
    unfold chkStep
    rw [if_neg (by simp [hdesc, hskip])]
    dsimp only
    rw [hdm]
  refine ⟨?_, ?_, ?_, ?_, ?_⟩
  · intro hws hnz
    rw [hstep, if_pos hws]
    dsimp only
    rw [if_neg (by simpa using hnz)]
  · intro hws hz
    rw [hstep, if_pos hws]
    dsimp only
    rw [if_pos (by simpa using hz)]
  · intro hws hdp hnz
    refine ⟨(td_amt_nonneg dp).lt_of_ne (Ne.symm hnz), ?_⟩
    rw [hstep, if_neg (by simpa using hws), if_pos hdp]
    dsimp only
    rw [if_neg hnz]
  · intro hws hdp hz
    rw [hstep, if_neg (by simpa using hws), if_pos hdp]
    dsimp only
    rw [if_pos hz]
  · intro hws hdp
    rw [hstep, if_neg (by simpa using hws), if_neg (by simpa using hdp)]

/-- C8 (witness): a checking row with withdrawal "50.00", empty deposit
and date "JAN15" yields one appended transaction with amount −50.00. -/
theorem C8_witness :
    chkStep ⟨195, 295, 395, 495⟩ 6 2024 []
        [mkW "INTERAC" 10 120, mkW "PURCHASE" 60 120, mkW "50.00" 210 120,
         mkW "JAN15" 400 120] =
      [{ Date := "2024-01-15", Description := "INTERAC PURCHASE", Amount := -5000 }] := by
  have h := (C8_thm ⟨195, 295, 395, 495⟩ 6 2024 []
    [mkW "INTERAC" 10 120, mkW "PURCHASE" 60 120, mkW "50.00" 210 120,
     mkW "JAN15" 400 120] (by decide) (by decide) "JAN" "15" (by decide)).1
    (by decide) (by decide)
  exact h.trans (by decide)

-- ── Membership lemmas for the parser folds ───────────────────────────────

/-- Every transaction a checking-layout step adds carries a `td_date`
date and a non-zero amount. -/
theorem chkStep_sub (cfg : ChkCfg) (sm : Nat) (sy : Int) (rows : List Tx)
    (line : List Word) :
    ∀ t ∈ chkStep cfg sm sy rows line,
      t ∈ rows ∨ ∃ tok dsc a, a ≠ (0 : Int) ∧
        t = { Date := td_date tok sm sy, Description := dsc, Amount := a } := by
  intro t ht
  unfold chkStep at ht
  dsimp only at ht
  repeat' split at ht
  all_goals
    first
      | exact Or.inl ht
      | (rcases List.mem_append.1 ht with h | h
         · exact Or.inl h
         · rcases List.mem_singleton.1 h with rfl
           exact Or.inr ⟨_, _, _, by assumption, rfl⟩)

/-- Descriptions aside, `updLast` preserves the amounts in the list. -/
theorem updLast_mem (d : String) :
    ∀ (l : List RawCC), ∀ r ∈ updLast l d, ∃ r0 ∈ l, r.Amount = r0.Amount := by
  intro l
  induction l with
  | nil => intro r hr; simp [updLast] at hr
  | cons x xs ih =>
    intro r hr
    cases xs with
    | nil =>
      simp only [updLast, List.mem_singleton] at hr
      subst hr
      exact ⟨x, List.mem_singleton.2 rfl, rfl⟩
    | cons y ys =>
      simp only [updLast, List.mem_cons] at hr
      rcases hr with rfl | hr
      · exact ⟨_, List.mem_cons_self _ _, rfl⟩
      · obtain ⟨r0, hr0, he⟩ := ih r hr
        exact ⟨r0, List.mem_cons_of_mem x hr0, he⟩

/-- The credit-card accumulation step keeps all raw amounts non-zero. -/
theorem ccStep_amounts (cfg : CCCfg) (st : CCSt) (line : List Word)
    (hst : ∀ r ∈ st.raw, r.Amount ≠ (0 : Int)) :
    ∀ r ∈ (ccStep cfg st line).raw, r.Amount ≠ (0 : Int) := by
  intro r hr
  unfold ccStep at hr
  dsimp only at hr
  repeat' split at hr
  all_goals try dsimp only at hr
  all_goals
    first
      | exact hst r hr
      | (rcases List.mem_append.1 hr with h | h
         · exact hst r h
         · rcases List.mem_singleton.1 h with rfl
           dsimp only
           omega)
      | (obtain ⟨r0, hr0, he⟩ := updLast_mem _ _ r hr
         rw [he]
         exact hst r0 hr0)

/-- Where the transactions of one checking page come from. -/
theorem chkPage_sub (sm : Nat) (sy : Int) (rows : List Tx) (page : Page)
    (r : List Tx) (h : chkPage sm sy rows page = .ok r) :
    ∀ t ∈ r, t ∈ rows ∨ ∃ tok dsc a, a ≠ (0 : Int) ∧
      t = { Date := td_date tok sm sy, Description := dsc, Amount := a } := by
  unfold chkPage at h
  cases hw : td_up page 2 with
  | error e => rw [hw] at h; simp [Bind.bind, Except.bind] at h
  | ok words =>
    rw [hw] at h
    simp only [Bind.bind, Except.bind] at h
    split at h
    · cases h
      exact fun t ht => Or.inl ht
    · split at h
      · cases h
        exact fun t ht => Or.inl ht
      · split at h
        · cases h
          refine foldlInv
            (fun rows' => ∀ t ∈ rows', t ∈ rows ∨ ∃ tok dsc a, a ≠ (0 : Int) ∧
              t = { Date := td_date tok sm sy, Description := dsc, Amount := a })
            _ _ rows (fun t ht => Or.inl ht) ?_
          intro b line hb t ht
          rcases chkStep_sub _ sm sy b line t ht with h1 | h1
          · exact hb t h1
          · exact Or.inr h1
        · cases h
          exact fun t ht => Or.inl ht

/-- Where the transactions of `parse_td_chk` come from. -/
theorem parse_td_chk_sub (doc : PDoc) (sm : Nat) (sy : Int) (ts : List Tx)
    (h : parse_td_chk doc sm sy = .ok ts) :
    ∀ t ∈ ts, ∃ tok dsc a, a ≠ (0 : Int) ∧
      t = { Date := td_date tok sm sy, Description := dsc, Amount := a } := by
  unfold parse_td_chk at h
  cases hp : openPages doc with
  | error e => rw [hp] at h; simp [Bind.bind, Except.bind] at h
  | ok pages =>
    rw [hp] at h
    simp only [Bind.bind, Except.bind] at h
    refine foldlMInv (fun ts' => ∀ t ∈ ts', ∃ tok dsc a, a ≠ (0 : Int) ∧
      t = { Date := td_date tok sm sy, Description := dsc, Amount := a })
      _ pages [] ts h (by simp) ?_
    intro b page r' hb hstep t ht
    rcases chkPage_sub sm sy b page r' hstep t ht with h1 | h1
    · exact hb t h1
    · exact h1

/-- One credit-card page keeps all raw amounts non-zero. -/
theorem ccPage_amounts (raw : List RawCC) (page : Page) (r : List RawCC)
    (h : ccPage raw page = .ok r) (hraw : ∀ x ∈ raw, x.Amount ≠ (0 : Int)) :
    ∀ x ∈ r, x.Amount ≠ (0 : Int) := by
  unfold ccPage at h
  cases hw : td_up page 1 with
  | error e => rw [hw] at h; simp [Bind.bind, Except.bind] at h
  | ok words =>
    rw [hw] at h
    simp only [Bind.bind, Except.bind] at h
    split at h
    · cases h
      exact hraw
    · split at h
      · cases h
        exact hraw
      · cases h
        refine foldlInv (fun st : CCSt => ∀ x ∈ st.raw, x.Amount ≠ (0 : Int)) _ _ _
          hraw ?_ 
        intro b line hb
        exact ccStep_amounts _ b line hb

/-- `parse_td_cc` emits only non-zero amounts. -/
theorem parse_td_cc_amounts (doc : PDoc) (sm : Nat) (sy : Int) (ts : List Tx)
    (h : parse_td_cc doc sm sy = .ok ts) :
    ∀ t ∈ ts, t.Amount ≠ (0 : Int) := by
  unfold parse_td_cc at h
  cases hp : openPages doc with
  | error e => rw [hp] at h; simp [Bind.bind, Except.bind] at h
  | ok pages =>
    rw [hp] at h
    simp only [Bind.bind, Except.bind] at h
    cases hr : pages.foldlM ccPage [] with
    | error e => rw [hr] at h; simp at h
    | ok raw =>
      rw [hr] at h
      simp only [pure, Except.pure] at h
      cases h
      have hnz : ∀ x ∈ raw, x.Amount ≠ (0 : Int) :=
        foldlMInv (fun raw' => ∀ x ∈ raw', x.Amount ≠ (0 : Int)) ccPage pages [] raw hr
          (by simp) (fun b page r' hb hstep => ccPage_amounts b page r' hstep hb)
      intro t ht
      obtain ⟨x, hx, rfl⟩ := List.mem_map.1 ht
      exact hnz x hx

/-- `parse_td_cc` dates all come from the `td_date` resolver. -/
theorem parse_td_cc_dates (doc : PDoc) (sm : Nat) (sy : Int) (ts : List Tx)
    (h : parse_td_cc doc sm sy = .ok ts) :
    ∀ t ∈ ts, ∃ tok, t.Date = td_date tok sm sy := by
  unfold parse_td_cc at h
  cases hp : openPages doc with
  | error e => rw [hp] at h; simp [Bind.bind, Except.bind] at h
  | ok pages =>
    rw [hp] at h
    simp only [Bind.bind, Except.bind] at h
    cases hr : pages.foldlM ccPage [] with
    | error e => rw [hr] at h; simp at h
    | ok raw =>
      rw [hr] at h
      simp only [pure, Except.pure] at h
      cases h
      intro t ht
      obtain ⟨x, _, rfl⟩ := List.mem_map.1 ht
      exact ⟨x.DateRaw, rfl⟩

/-- `parse_td` emits only non-zero amounts. -/
theorem parse_td_amounts (doc : PDoc) (p : String) (nowM : Nat) (nowY : Int)
    (ts : List Tx) (h : parse_td doc p nowM nowY = .ok ts) :
    ∀ t ∈ ts, t.Amount ≠ (0 : Int) := by
  unfold parse_td at h
  cases htt : td_type doc with
  | error e => rw [htt] at h; simp [Bind.bind, Except.bind] at h
  | ok st =>
    rw [htt] at h
    simp only [Bind.bind, Except.bind] at h
    split at h
    · exact parse_td_cc_amounts _ _ _ _ h
    · intro t ht
      obtain ⟨tok, dsc, a, ha, rfl⟩ := parse_td_chk_sub _ _ _ _ h t ht
      exact ha

/-- `parse_td` dates all come from the `td_date` resolver. -/
theorem parse_td_dates (doc : PDoc) (p : String) (nowM : Nat) (nowY : Int)
    (ts : List Tx) (h : parse_td doc p nowM nowY = .ok ts) :
    ∀ t ∈ ts, ∃ tok sm sy, t.Date = td_date tok sm sy := by
  unfold parse_td at h
  cases htt : td_type doc with
  | error e => rw [htt] at h; simp [Bind.bind, Except.bind] at h
  | ok st =>
    rw [htt] at h
    simp only [Bind.bind, Except.bind] at h
    split at h
    · intro t ht
      obtain ⟨tok, he⟩ := parse_td_cc_dates _ _ _ _ h t ht
      exact ⟨tok, _, _, he⟩
    · intro t ht
      obtain ⟨tok, dsc, a, _, rfl⟩ := parse_td_chk_sub _ _ _ _ h t ht
      exact ⟨tok, _, _, rfl⟩

/-- Where the transactions of one BMO line step come from. -/
theorem bmoLine_sub (fmt : String) (sm : Nat) (sy : Int) (rows : List Tx)
    (line : String) (r : List Tx) (h : bmoLine fmt sm sy rows line = .ok r) :
    ∀ t ∈ r, t ∈ rows ∨ ∃ tok, t.Date = bmo_date tok sm sy := by
  unfold bmoLine at h
  split at h
  · cases h
    exact fun t ht => Or.inl ht
  · dsimp only at h
    split at h
    · simp at h
    · cases h
      intro t ht
      rcases List.mem_append.1 ht with h1 | h1
      · exact Or.inl h1
      · rcases List.mem_singleton.1 h1 with rfl
        exact Or.inr ⟨_, rfl⟩

/-- `parse_bmo` dates all come from the `bmo_date` resolver. -/
theorem parse_bmo_dates (doc : PDoc) (p : String) (nowM : Nat) (nowY : Int)
    (ts : List Tx) (h : parse_bmo doc p nowM nowY = .ok ts) :
    ∀ t ∈ ts, ∃ tok sm sy, t.Date = bmo_date tok sm sy := by
  unfold parse_bmo at h
  cases hp : openPages doc with
  | error e => rw [hp] at h; simp [Bind.bind, Except.bind] at h
  | ok pages =>
    rw [hp] at h
    simp only [Bind.bind, Except.bind] at h
    have key := foldlMInv (fun rows => ∀ t ∈ rows,
        ∃ tok, t.Date = bmo_date tok (bmo_my (pathName p) nowM nowY).1
          (bmo_my (pathName p) nowM nowY).2) _ pages [] ts h (by simp) ?_
    · intro t ht
      obtain ⟨tok, he⟩ := key t ht
      exact ⟨tok, _, _, he⟩
    · intro b page r' hb hstep
      cases htx : page.textRes with
      | error e => rw [htx] at hstep; simp [Bind.bind, Except.bind] at hstep
      | ok t0 =>
        rw [htx] at hstep
        simp only [Bind.bind, Except.bind] at hstep
        refine foldlMInv (fun rows => ∀ t ∈ rows, ∃ tok,
            t.Date = bmo_date tok (bmo_my (pathName p) nowM nowY).1
              (bmo_my (pathName p) nowM nowY).2) _ _ b r' hstep hb ?_
        intro b2 line r2 hb2 hstep2 t ht
        rcases bmoLine_sub _ _ _ b2 line r2 hstep2 t ht with h1 | h1
        · exact hb2 t h1
        · exact h1

-- ── Orchestration lemmas ─────────────────────────────────────────────────

/-- In the unresolved-account fallback the returned transactions always
come from one of the two parsers. -/
theorem mainFallback_sub (account : Option String) (doc : PDoc) (p : String)
    (nowM : Nat) (nowY : Int) (acc : Option String) (ts : List Tx)
    (h : mainFallback account doc p nowM nowY = .ok (acc, ts)) :
    parse_bmo doc p nowM nowY = .ok ts ∨ parse_td doc p nowM nowY = .ok ts := by
  unfold mainFallback at h
  cases hb : parse_bmo doc p nowM nowY with
  | error e =>
    cases ht : parse_td doc p nowM nowY with
    | error e2 => simp [hb, ht, Bind.bind, Except.bind, Except.map] at h
    | ok ts2 =>
      simp only [hb, ht, Bind.bind, Except.bind, Except.map, Except.ok.injEq,
        Prod.mk.injEq] at h
      right
      rw [h.2]
  | ok ts0 =>
    by_cases he : ts0.isEmpty
    · cases ht : parse_td doc p nowM nowY with
      | error e2 => simp [hb, ht, he, Bind.bind, Except.bind, Except.map] at h
      | ok ts2 =>
        simp only [hb, ht, he, Bind.bind, Except.bind, if_true, pure, Except.pure,
          Except.ok.injEq, Prod.mk.injEq] at h
        right
        rw [h.2]
    · simp only [hb, he, Bind.bind, Except.bind, if_false, pure, Except.pure,
        Except.ok.injEq, Prod.mk.injEq, Bool.false_eq_true] at h
      left
      rw [h.2]

/-- On the success path the emitted transactions come from a parser (or
the error path emitted the empty list). -/
theorem mainModel_sources (p : String) (hint : Option String) (doc : PDoc)
    (nowM : Nat) (nowY : Int) (ts : List Tx)
    (h : (mainModel p hint doc true nowM nowY).1.transactions = some ts) :
    ts = [] ∨ parse_bmo doc p nowM nowY = .ok ts ∨ parse_td doc p nowM nowY = .ok ts := by
  unfold mainModel at h
  rw [if_neg (by simp)] at h
  dsimp only at h
  split at h
  · rename_i r heq
    simp only [Option.some.injEq] at h
    subst h
    right
    split at heq
    · rename_i acc
      split at heq
      · cases hb : parse_bmo doc p nowM nowY with
        | error e => rw [hb] at heq; simp [Except.map] at heq
        | ok ts0 =>
          rw [hb] at heq
          simp only [Except.map, Except.ok.injEq] at heq
          rw [← heq]
          exact Or.inl rfl
      · split at heq
        · cases ht : parse_td doc p nowM nowY with
          | error e => rw [ht] at heq; simp [Except.map] at heq
          | ok ts0 =>
            rw [ht] at heq
            simp only [Except.map, Except.ok.injEq] at heq
            rw [← heq]
            exact Or.inr rfl
        · exact mainFallback_sub _ doc p nowM nowY _ _ heq
    · exact mainFallback_sub _ doc p nowM nowY _ _ heq
  · rename_i e heq
    simp only [Option.some.injEq] at h
    exact Or.inl h.symm

-- ── C1 ───────────────────────────────────────────────────────────────────

/-- C1 (counterexample): the BMO parser accepts a line whose numeral is
`0.00` and emits a zero-amount transaction, so "every returned
Transaction has a non-zero amount" fails. -/
theorem C1_cex :
    (mainModel "x.pdf" (some "bmo cad") bmoZeroDocW true 1 2024).1.transactions =
      some [{ Date := "2024-01-05", Description := "FEE REVERSAL", Amount := 0 }] ∧
    ({ Date := "2024-01-05", Description := "FEE REVERSAL", Amount := 0 } : Tx).Amount = 0 := by
  decide

/-- C1 (amended): for every document the ParseResult's count field
equals the length of its transactions list, and every transaction
produced by the TD parser has a non-zero amount; the BMO parser,
however, can emit a zero-amount transaction when a matched line's
numeral is 0.00. -/
theorem C1_amended_thm :
    (∀ (pdfPath : String) (hint : Option String) (doc : PDoc) (fsExists : Bool)
        (nowM : Nat) (nowY : Int) (ts : List Tx),
        (mainModel pdfPath hint doc fsExists nowM nowY).1.transactions = some ts →
        (mainModel pdfPath hint doc fsExists nowM nowY).1.count = some ts.length) ∧
    (∀ (doc : PDoc) (p : String) (nowM : Nat) (nowY : Int) (ts : List Tx) (t : Tx),
        parse_td doc p nowM nowY = .ok ts → t ∈ ts → t.Amount ≠ 0) := by
  constructor
  · intro pdfPath hint doc fsExists nowM nowY ts h
    unfold mainModel at h ⊢
    by_cases hex : fsExists = false
    · rw [if_pos hex] at h
      simp at h
    · rw [if_neg hex] at h ⊢
      dsimp only at h ⊢
      split at h
      · simp only [Option.some.injEq] at h
        subst h
        rfl
      · simp only [Option.some.injEq] at h
        subst h
        rfl
  · intro doc p nowM nowY ts t h ht
    exact parse_td_amounts doc p nowM nowY ts h t ht

/-- C1 (witness): a concrete run whose count is the transaction-list
length, and a concrete TD-parsed transaction with non-zero amount. -/
theorem C1_amended_witness :
    (mainModel "stmt.pdf" none tdChkDocW true 6 2024).1.count = some 1 ∧
    ({ Date := "2024-01-15", Description := "INTERAC PURCHASE", Amount := -5000 } : Tx).Amount ≠ 0 := by
  constructor
  · exact C1_amended_thm.1 "stmt.pdf" none tdChkDocW true 6 2024
      [{ Date := "2024-01-15", Description := "INTERAC PURCHASE", Amount := -5000 }]
      (by decide)
  · exact C1_amended_thm.2 tdChkDocW "stmt.pdf" 6 2024
      [{ Date := "2024-01-15", Description := "INTERAC PURCHASE", Amount := -5000 }]
      _ (by decide) (by decide)

-- ── C9 ───────────────────────────────────────────────────────────────────

/-- C9 (counterexample): the line "Abc 5 Jan 6 STORE 45.67" matches the
structural pattern but its month token names no month, so the raw token
"Abc 5" is returned verbatim as the transaction's date — not a
`YYYY-MM-DD` string. -/
theorem C9_cex :
    (mainModel "x.pdf" (some "bmo cad") bmoAbcDocW true 1 2024).1.transactions =
      some [{ Date := "Abc 5", Description := "STORE", Amount := -4567 }] ∧
    isIsoDate "Abc 5" = false := by
  decide

/-- C9 (amended): every returned transaction's date comes from one of
the two date resolvers applied to its line's month/day token; each
resolver yields the ISO-style render of (rolled statement year, token
month, token day) when the token parses and the day is valid for the
month (in 1900), and otherwise echoes the raw token verbatim. -/
theorem C9_amended_thm :
    (∀ (p : String) (hint : Option String) (doc : PDoc) (nowM : Nat) (nowY : Int)
        (ts : List Tx) (t : Tx),
        (mainModel p hint doc true nowM nowY).1.transactions = some ts → t ∈ ts →
        ∃ tok sm sy, t.Date = bmo_date tok sm sy ∨ t.Date = td_date tok sm sy) ∧
    (∀ (tok : String) (sm : Nat) (sy : Int),
        (∃ m d, bmoTokParse tok = some (m, d) ∧ 1 ≤ d ∧ d ≤ daysIn1900 m ∧
          bmo_date tok sm sy =
            isoRender (if m = 12 ∧ sm = 1 then sy - 1
                       else if m = 1 ∧ sm = 12 then sy + 1 else sy) m d) ∨
        bmo_date tok sm sy = tok) ∧
    (∀ (raw : String) (sm : Nat) (sy : Int),
        (∃ m d, tdTokParse raw = some (m, d) ∧ 1 ≤ d ∧ d ≤ daysIn1900 m ∧
          td_date raw sm sy =
            isoRender (if m = 12 ∧ sm = 1 then sy - 1
                       else if m = 1 ∧ sm = 12 then sy + 1 else sy) m d) ∨
        td_date raw sm sy = raw) := by
  refine ⟨?_, ?_, ?_⟩
  · intro p hint doc nowM nowY ts t h ht
    rcases mainModel_sources p hint doc nowM nowY ts h with rfl | hb | htd
    · simp at ht
    · obtain ⟨tok, sm, sy, he⟩ := parse_bmo_dates doc p nowM nowY ts hb t ht
      exact ⟨tok, sm, sy, Or.inl he⟩
    · obtain ⟨tok, sm, sy, he⟩ := parse_td_dates doc p nowM nowY ts htd t ht
      exact ⟨tok, sm, sy, Or.inr he⟩
  · intro tok sm sy
    unfold bmo_date
    cases hp : bmoTokParse tok with
    | none => exact Or.inr rfl
    | some md =>
      obtain ⟨m, d⟩ := md
      dsimp only
      by_cases hv : 1 ≤ d ∧ d ≤ daysIn1900 m
      · left
        refine ⟨m, d, rfl, hv.1, hv.2, ?_⟩
        rw [if_pos hv]
      · right
        rw [if_neg hv]
  · intro raw sm sy
    unfold td_date
    cases hp : tdTokParse raw with
    | none => exact Or.inr rfl
    | some md =>
      obtain ⟨m, d⟩ := md
      dsimp only
      by_cases hv : 1 ≤ d ∧ d ≤ daysIn1900 m
      · left
        refine ⟨m, d, rfl, hv.1, hv.2, ?_⟩
        rw [if_pos hv]
      · right
        rw [if_neg hv]

/-- C9 (witness): the zero-amount run's transaction date is resolver
output, and both resolvers evaluated at concrete tokens. -/
theorem C9_amended_witness :
    (∃ tok sm sy,
        ({ Date := "2024-01-05", Description := "FEE REVERSAL", Amount := 0 } : Tx).Date =
            bmo_date tok sm sy ∨
          ({ Date := "2024-01-05", Description := "FEE REVERSAL", Amount := 0 } : Tx).Date =
            td_date tok sm sy) ∧
    ((∃ m d, bmoTokParse "Jan 5" = some (m, d) ∧ 1 ≤ d ∧ d ≤ daysIn1900 m ∧
        bmo_date "Jan 5" 1 2024 =
          isoRender (if m = 12 ∧ (1 : Nat) = 1 then 2024 - 1
                     else if m = 1 ∧ (1 : Nat) = 12 then 2024 + 1 else 2024) m d) ∨
      bmo_date "Jan 5" 1 2024 = "Jan 5") ∧
    ((∃ m d, tdTokParse "JAN15" = some (m, d) ∧ 1 ≤ d ∧ d ≤ daysIn1900 m ∧
        td_date "JAN15" 6 2024 =
          isoRender (if m = 12 ∧ (6 : Nat) = 1 then 2024 - 1
                     else if m = 1 ∧ (6 : Nat) = 12 then 2024 + 1 else 2024) m d) ∨
      td_date "JAN15" 6 2024 = "JAN15") :=
  ⟨C9_amended_thm.1 "x.pdf" (some "bmo cad") bmoZeroDocW 1 2024
      [{ Date := "2024-01-05", Description := "FEE REVERSAL", Amount := 0 }] _
      (by decide) (by decide),
   C9_amended_thm.2.1 "Jan 5" 1 2024,
   C9_amended_thm.2.2 "JAN15" 6 2024⟩

-- ── C10 ──────────────────────────────────────────────────────────────────

/-- C10: with the account unresolved, if the BMO parser raises, `main`
returns the TD parser's transactions with the account still null; the
"TD CAD Checking" default is applied only on the zero-transaction
fallback path (BMO succeeded with no rows, TD produced rows), never on
the exception path. -/
theorem C10_thm (pdfPath : String) (hint : Option String) (doc : PDoc)
    (nowM : Nat) (nowY : Int) (hacc : detect_account pdfPath hint = none) :
    (∀ e ts, parse_bmo doc pdfPath nowM nowY = .error e →
        parse_td doc pdfPath nowM nowY = .ok ts →
        (mainModel pdfPath hint doc true nowM nowY).1.account = some none ∧
        (mainModel pdfPath hint doc true nowM nowY).1.transactions = some ts) ∧
    (∀ ts, parse_bmo doc pdfPath nowM nowY = .ok [] →
        parse_td doc pdfPath nowM nowY = .ok ts → ts ≠ [] →
        (mainModel pdfPath hint doc true nowM nowY).1.account =
          some (some "TD CAD Checking")) := by
  constructor
  · intro e ts hb ht
    unfold mainModel
    rw [if_neg (by simp), hacc]
    dsimp only
    unfold mainFallback
    rw [hb]
    simp only [Bind.bind, Except.bind, ht, Except.map]
    exact ⟨trivial, trivial⟩
  · intro ts hb ht hne
    unfold mainModel
    rw [if_neg (by simp), hacc]
    dsimp only
    unfold mainFallback
    rw [hb]
    simp only [Bind.bind, Except.bind, List.isEmpty_nil, if_true, ht, pure, Except.pure]
    rw [if_pos (⟨by simpa using hne, trivial⟩ : _ ∧ True)]

/-- C10 (witness): a document whose text extraction raises (so the BMO
parser fails) but whose words form a TD checking table: the output
carries the TD transactions and a null account. -/
theorem C10_witness :
    (mainModel "stmt.pdf" none tdChkDocW true 6 2024).1.account = some none ∧
    (mainModel "stmt.pdf" none tdChkDocW true 6 2024).1.transactions =
      some [{ Date := "2024-01-15", Description := "INTERAC PURCHASE", Amount := -5000 }] :=
  (C10_thm "stmt.pdf" none tdChkDocW 6 2024 (by decide)).1 "text extraction failed"
    [{ Date := "2024-01-15", Description := "INTERAC PURCHASE", Amount := -5000 }]
    (by decide) (by decide)

-- ── C4 helper lemmas: character facts ────────────────────────────────────

theorem digit_toUpper {c : Char} (h : isAsciiDigit c = true) : c.toUpper = c := by
  simp only [isAsciiDigit, Bool.and_eq_true, decide_eq_true_eq] at h
  simp only [Char.toUpper]
  rw [if_neg (by omega)]

theorem digit_ne {c : Char} (h : isAsciiDigit c = true) :
    c ≠ 'C' ∧ c ≠ ',' ∧ c ≠ '$' ∧ c ≠ '-' ∧ c ≠ '+' ∧ c ≠ '.' := by
  refine ⟨?_, ?_, ?_, ?_, ?_, ?_⟩ <;> (rintro rfl; exact absurd h (by decide))

theorem pySpace_cases {c : Char} (h : pySpace c = true) :
    c = ' ' ∨ c = '\t' ∨ c = '\n' ∨ c = '\r' ∨ c = '\x0b' ∨ c = '\x0c' := by
  simp only [pySpace, Bool.or_eq_true, decide_eq_true_eq] at h
  tauto

theorem digit_space {c : Char} (h : isAsciiDigit c = true) : pySpace c = false := by
  by_contra hs
  rw [Bool.not_eq_false] at hs
  rcases pySpace_cases hs with rfl | rfl | rfl | rfl | rfl | rfl <;>
    exact absurd h (by decide)

theorem space_facts {c : Char} (h : pySpace c = true) :
    c.toUpper = c ∧ c ≠ 'C' ∧ c ≠ ',' ∧ c ≠ '$' := by
  rcases pySpace_cases h with rfl | rfl | rfl | rfl | rfl | rfl <;> exact ⟨by decide, by decide, by decide, by decide⟩

-- ── C4 helper lemmas: list machinery ─────────────────────────────────────

theorem map_id_of {α : Type} (f : α → α) :
    ∀ (l : List α), (∀ c ∈ l, f c = c) → l.map f = l
  | [], _ => rfl
  | a :: t, h => by
    simp only [List.map_cons, h a (List.mem_cons_self a t)]
    rw [map_id_of f t (fun c hc => h c (List.mem_cons_of_mem a hc))]

theorem hasSubL_append_right (l m n : List Char) (h : hasSubL m n = true) :
    hasSubL (l ++ m) n = true := by
  induction l with
  | nil => simpa using h
  | cons a t ih =>
    unfold hasSubL
    simp only [List.cons_append]
    rw [ih]
    simp

theorem startsWithL_head : ∀ (l : List Char) (c : Char) (rest : List Char),
    startsWithL l (c :: rest) = true → l.head? = some c
  | [], _, _, h => by simp [startsWithL] at h
  | a :: t, c, rest, h => by
    simp only [startsWithL, Bool.and_eq_true, decide_eq_true_eq] at h
    simp [h.1]

theorem hasSubL_char : ∀ (l : List Char) (c : Char) (rest : List Char),
    hasSubL l (c :: rest) = true → c ∈ l := by
  intro l
  induction l with
  | nil => intro c rest h; simp [hasSubL, startsWithL] at h
  | cons a t ih =>
    intro c rest h
    unfold hasSubL at h
    dsimp only at h
    rw [Bool.or_eq_true] at h
    rcases h with h1 | h1
    · have := startsWithL_head (a :: t) c rest h1
      simp only [List.head?_cons, Option.some.injEq] at this
      rw [this]
      exact List.mem_cons_self _ _
    · exact List.mem_cons_of_mem a (ih c rest h1)

theorem removeCRL_no_C : ∀ (l m : List Char), (∀ x ∈ l, x ≠ 'C') →
    removeCRL (l ++ m) = l ++ removeCRL m := by
  intro l
  induction l with
  | nil => intro m _; rfl
  | cons a t ih =>
    intro m hl
    have ha : a ≠ 'C' := hl a (List.mem_cons_self a t)
    have step : removeCRL (a :: (t ++ m)) = a :: removeCRL (t ++ m) := by
      conv_lhs => rw [removeCRL.eq_def]
      split
      · rename_i heq
        exact absurd heq (by simp)
      · rename_i rest heq
        injection heq with h1 _
        exact absurd h1 ha
      · rename_i c cs hno heq
        injection heq with h1 h2
        rw [h1, h2]
    simp only [List.cons_append, step, ih m (fun x hx => hl x (List.mem_cons_of_mem a hx))]

theorem dropWhile_id_head (p : Char → Bool) (l : List Char)
    (h : ∀ c, l.head? = some c → p c = false) : l.dropWhile p = l := by
  cases l with
  | nil => rfl
  | cons a t =>
    rw [List.dropWhile_cons, if_neg]
    simp [h a rfl]

theorem pyStripL_id (l : List Char)
    (h1 : ∀ c, l.head? = some c → pySpace c = false)
    (h2 : ∀ c, l.getLast? = some c → pySpace c = false) : pyStripL l = l := by
  unfold pyStripL
  rw [dropWhile_id_head pySpace l h1]
  rw [dropWhile_id_head pySpace l.reverse
    (fun c hc => h2 c (by rwa [List.head?_reverse] at hc))]
  exact List.reverse_reverse l

theorem dropWhile_append_single (p : Char → Bool) (l : List Char) (c : Char) :
    (l ++ [c]).dropWhile p =
      if (l.dropWhile p).isEmpty then [c].dropWhile p else l.dropWhile p ++ [c] := by
  induction l with
  | nil => simp
  | cons a t ih =>
    by_cases h : p a
    · simpa [List.dropWhile_cons, h] using ih
    · simp [List.dropWhile_cons, h]

theorem pyStripL_snoc_space (l : List Char) (c : Char) (hc : pySpace c = true) :
    pyStripL (l ++ [c]) = pyStripL l := by
  unfold pyStripL
  rw [dropWhile_append_single pySpace l c]
  by_cases h : (l.dropWhile pySpace).isEmpty
  · rw [if_pos h]
    have hl : l.dropWhile pySpace = [] := by simpa [List.isEmpty_iff] using h
    simp [List.dropWhile_cons, hc, hl]
  · rw [if_neg h]
    rw [List.reverse_append]
    simp only [List.reverse_cons, List.reverse_nil, List.nil_append, List.singleton_append]
    rw [List.dropWhile_cons, if_pos hc]

theorem takeWhile_append_of_all (p : Char → Bool) (l m : List Char)
    (hl : ∀ c ∈ l, p c = true) (hm : ∀ c, m.head? = some c → p c = false) :
    (l ++ m).takeWhile p = l := by
  induction l with
  | nil =>
    simp only [List.nil_append]
    cases m with
    | nil => rfl
    | cons a t => simp [List.takeWhile_cons, hm a rfl]
  | cons a t ih =>
    simp only [List.cons_append, List.takeWhile_cons,
      hl a (List.mem_cons_self a t), if_true]
    rw [ih (fun c hc => hl c (List.mem_cons_of_mem a hc))]

-- ── C4: shape of the matched amount token ────────────────────────────────

theorem amtMatchCore_shape (mp cs tok rest : List Char)
    (hmp : mp = [] ∨ mp = ['-'])
    (h : amtMatchCore mp cs = some (tok, rest)) : AmtShape tok := by
  unfold amtMatchCore at h
  dsimp only at h
  have hrun : ∀ c ∈ cs.takeWhile (fun c => isAsciiDigit c || c = ','),
      isAsciiDigit c = true ∨ c = ',' := by
    intro c hc
    have := List.mem_takeWhile_imp hc
    simpa [Bool.or_eq_true, decide_eq_true_eq] using this
  split at h
  · exact absurd h (by simp)
  · rename_i hne
    have hne' : cs.takeWhile (fun c => isAsciiDigit c || c = ',') ≠ [] := by
      simpa [List.isEmpty_iff] using hne
    split at h
    · rename_i d1 d2 rest2 heq
      split at h
      · rename_i hdd
        rw [Bool.and_eq_true] at hdd
        split at h
        · rename_i s c r rest3
          split at h
          · rename_i hcond
            simp only [Bool.and_eq_true, Bool.or_eq_true, decide_eq_true_eq] at hcond
            injection h with h1
            injection h1 with h1 h2
            refine ⟨mp, _, d1, d2, [s, c, r], by rw [← h1]; simp, hmp, hne', hrun,
              hdd.1, hdd.2,
              Or.inr (Or.inr ⟨s, c, r, rfl, hcond.1.1.1, hcond.1.1.2, hcond.1.2⟩)⟩
          · split at h
            · rename_i hcond
              simp only [Bool.and_eq_true, Bool.or_eq_true, decide_eq_true_eq] at hcond
              injection h with h1
              injection h1 with h1 h2
              refine ⟨mp, _, d1, d2, [s, c], by rw [← h1]; simp, hmp, hne', hrun,
                hdd.1, hdd.2, Or.inr (Or.inl ⟨s, c, rfl, hcond.1.1, hcond.1.2⟩)⟩
            · split at h
              · injection h with h1
                injection h1 with h1 h2
                refine ⟨mp, _, d1, d2, [], by rw [← h1], hmp, hne', hrun,
                  hdd.1, hdd.2, Or.inl rfl⟩
              · exact absurd h (by simp)
        · rename_i s c
          split at h
          · rename_i hcond
            simp only [Bool.and_eq_true, Bool.or_eq_true, decide_eq_true_eq] at hcond
            injection h with h1
            injection h1 with h1 h2
            refine ⟨mp, _, d1, d2, [s, c], by rw [← h1]; simp, hmp, hne', hrun,
              hdd.1, hdd.2, Or.inr (Or.inl ⟨s, c, rfl, hcond.1, hcond.2⟩)⟩
          · split at h
            · injection h with h1
              injection h1 with h1 h2
              refine ⟨mp, _, d1, d2, [], by rw [← h1], hmp, hne', hrun,
                hdd.1, hdd.2, Or.inl rfl⟩
            · exact absurd h (by simp)
        · split at h
          · injection h with h1
            injection h1 with h1 h2
            refine ⟨mp, _, d1, d2, [], by rw [← h1], hmp, hne', hrun,
              hdd.1, hdd.2, Or.inl rfl⟩
          · exact absurd h (by simp)
      · exact absurd h (by simp)
    · exact absurd h (by simp)

theorem amtMatch_shape (cs tok rest : List Char)
    (h : amtMatch cs = some (tok, rest)) : AmtShape tok := by
  rw [amtMatch.eq_def] at h
  split at h
  · exact amtMatchCore_shape ['-'] _ tok rest (Or.inr rfl) h
  · exact amtMatchCore_shape [] cs tok rest (Or.inl rfl) h

theorem sepAmt_shape (cs tok rest : List Char)
    (h : sepAmt cs = some (tok, rest)) : AmtShape tok := by
  unfold sepAmt at h
  split at h
  · exact absurd h (by simp)
  · exact amtMatch_shape _ tok rest h

theorem tailFrom_amt (cs : List Char) : ∀ acc desc tok : List Char,
    tailFrom acc cs = some (desc, tok) → AmtShape tok := by
  induction cs with
  | nil =>
    intro acc desc tok h
    rw [tailFrom.eq_def] at h
    split at h
    · rename_i p heq
      injection h with h1
      injection h1 with h1 h2
      exact h2 ▸ sepAmt_shape [] p.1 p.2 (by rw [heq])
    · exact absurd h (by simp)
    · rename_i heq2
      cases heq2
  | cons c rest ih =>
    intro acc desc tok h
    rw [tailFrom.eq_def] at h
    split at h
    · rename_i p heq
      injection h with h1
      injection h1 with h1 h2
      exact h2 ▸ sepAmt_shape (c :: rest) p.1 p.2 (by rw [heq])
    · rename_i heq2
      cases heq2
    · rename_i heq2
      injection heq2 with e1 e2
      subst e1
      subst e2
      split at h
      · exact absurd h (by simp)
      · exact ih (c :: acc) desc tok h

theorem bmoTransMatch_amt (line : String) (g1 g2 desc amt : String)
    (h : bmoTransMatch line = some (g1, g2, desc, amt)) : AmtShape amt.toList := by
  unfold bmoTransMatch at h
  obtain ⟨x1, hx1mem, hx1⟩ := firstSomeMem _ _ _ h
  split at hx1
  · exact absurd hx1 (by simp)
  · rename_i r2 hsp1
    obtain ⟨x2, hx2mem, hx2⟩ := firstSomeMem _ _ _ hx1
    obtain ⟨r3, hr3mem, hr3⟩ := firstSomeMem _ _ _ hx2
    split at hr3
    · exact absurd hr3 (by simp)
    · rename_i d a heq
      injection hr3 with h1
      injection h1 with h1 h2
      injection h2 with h2 h3
      injection h3 with h3 h4
      have := tailFrom_amt r3 [] d a heq
      rw [← h4]
      exact this

-- ── C4: evaluation of bmo_amt on shaped tokens ───────────────────────────

theorem hasSubL_CR_false (l : List Char) (h : 'C' ∉ l) :
    hasSubL l ['C', 'R'] = false := by
  by_contra hx
  rw [Bool.not_eq_false] at hx
  exact h (hasSubL_char l 'C' ['R'] hx)

theorem pyFloatCents_not_sign (l : List Char)
    (h : ∀ c, l.head? = some c → c ≠ '-' ∧ c ≠ '+') :
    pyFloatCents l = pyFloatMag l := by
  rw [pyFloatCents.eq_def]
  split
  · rename_i r
    exact absurd rfl ((h '-' rfl).1)
  · rename_i r
    exact absurd rfl ((h '+' rfl).2)
  · rfl

theorem pyFloatMag_eval (rd : List Char) (d1 d2 : Char)
    (hrd : ∀ c ∈ rd, isAsciiDigit c = true)
    (hd1 : isAsciiDigit d1 = true) (hd2 : isAsciiDigit d2 = true) :
    pyFloatMag (rd ++ ['.', d1, d2]) =
      some ((digitsVal rd * 100 + digitVal d1 * 10 + digitVal d2 : Nat) : Int) := by
  unfold pyFloatMag
  dsimp only
  rw [takeWhile_append_of_all isAsciiDigit rd ['.', d1, d2] hrd
    (by intro c hc; simp only [List.head?_cons, Option.some.injEq] at hc
        rw [← hc]; decide)]
  rw [List.drop_left]
  simp [hd1, hd2]

theorem head_cases {α : Type} (l m : List α) (c : α)
    (h : (l ++ m).head? = some c) : c ∈ l ∨ m.head? = some c := by
  cases l with
  | nil => exact Or.inr (by simpa using h)
  | cons a t =>
    simp only [List.cons_append, List.head?_cons, Option.some.injEq] at h
    exact Or.inl (h ▸ List.mem_cons_self a t)

theorem bmo_amt_eval (run suf : List Char) (d1 d2 : Char)
    (hrun : ∀ c ∈ run, isAsciiDigit c = true ∨ c = ',')
    (hd1 : isAsciiDigit d1 = true) (hd2 : isAsciiDigit d2 = true)
    (hsuf : CRsuf suf) :
    ∃ N : Nat,
      bmo_amt ⟨run ++ '.' :: d1 :: d2 :: suf⟩ =
        some (if suf.isEmpty then -(N : Int) else (N : Int)) ∧
      hasSub (upperS ⟨run ++ '.' :: d1 :: d2 :: suf⟩) "CR" = !suf.isEmpty := by
  have hrunU : ∀ c ∈ run, Char.toUpper c = c := by
    intro c hc
    rcases hrun c hc with h | rfl
    · exact digit_toUpper h
    · decide
  have hrunC : 'C' ∉ run := by
    intro hc
    rcases hrun 'C' hc with h | h
    · exact absurd h (by decide)
    · exact absurd h (by decide)
  have hrd : ∀ c ∈ run.filter (· ≠ ','), isAsciiDigit c = true := by
    intro c hc
    rcases List.mem_filter.mp hc with ⟨hcr, hcne⟩
    rcases hrun c hcr with h | rfl
    · exact h
    · simp at hcne
  have hrdC : 'C' ∉ run.filter (· ≠ ',') := by
    intro hc
    exact absurd (hrd 'C' hc) (by decide)
  rcases hsuf with rfl | ⟨c2, r2, rfl, hc2, hr2⟩ | ⟨s2, c2, r2, rfl, hs2, hc2, hr2⟩
  · refine ⟨digitsVal (run.filter (· ≠ ',')) * 100 + digitVal d1 * 10 + digitVal d2,
      ?_, ?_⟩
    · unfold bmo_amt
      dsimp only [String.toList]
      have h1 : (run ++ ['.', d1, d2]).filter (· ≠ ',') =
          run.filter (· ≠ ',') ++ ['.', d1, d2] := by
        rw [List.filter_append]
        simp [List.filter_cons, (digit_ne hd1).2.1, (digit_ne hd2).2.1]
      have h2 : (run.filter (· ≠ ',') ++ ['.', d1, d2]).filter (· ≠ '$') =
          run.filter (· ≠ ',') ++ ['.', d1, d2] := by
        rw [List.filter_append]
        rw [List.filter_eq_self.mpr (fun c hc => by
          simp only [decide_eq_true_eq]
          exact (digit_ne (hrd c hc)).2.2.1)]
        simp [List.filter_cons, (digit_ne hd1).2.2.1, (digit_ne hd2).2.2.1]
      have hhead : ∀ c, (run.filter (· ≠ ',') ++ ['.', d1, d2]).head? = some c →
          pySpace c = false := by
        intro c hc
        rcases head_cases _ _ c hc with hm | ht
        · exact digit_space (hrd c hm)
        · simp only [List.head?_cons, Option.some.injEq] at ht
          rw [← ht]; decide
      have hlast : ∀ c, (run.filter (· ≠ ',') ++ ['.', d1, d2]).getLast? = some c →
          pySpace c = false := by
        intro c hc
        have : (run.filter (· ≠ ',') ++ ['.', d1] ++ [d2]).getLast? = some c := by
          simpa [List.append_assoc] using hc
        rw [List.getLast?_concat] at this
        injection this with e
        rw [← e]
        exact digit_space hd2
      have h3 : pyStripL (run.filter (· ≠ ',') ++ ['.', d1, d2]) =
          run.filter (· ≠ ',') ++ ['.', d1, d2] := pyStripL_id _ hhead hlast
      have h4 : upperL (run.filter (· ≠ ',') ++ ['.', d1, d2]) =
          run.filter (· ≠ ',') ++ ['.', d1, d2] := by
        unfold upperL
        refine map_id_of _ _ ?_
        intro c hc
        rcases List.mem_append.mp hc with hm | hm
        · exact digit_toUpper (hrd c hm)
        · have : c = '.' ∨ c = d1 ∨ c = d2 := by simpa using hm
          rcases this with rfl | rfl | rfl
          · decide
          · exact digit_toUpper hd1
          · exact digit_toUpper hd2
      have hnoC : 'C' ∉ run.filter (· ≠ ',') ++ ['.', d1, d2] := by
        intro hc
        rcases List.mem_append.mp hc with hm | hm
        · exact hrdC hm
        · have : ('C' : Char) = '.' ∨ 'C' = d1 ∨ 'C' = d2 := by simpa using hm
          rcases this with e | e | e
          · exact absurd e (by decide)
          · exact absurd hd1 (by rw [← e]; decide)
          · exact absurd hd2 (by rw [← e]; decide)
      have h5 : hasSubL (run.filter (· ≠ ',') ++ ['.', d1, d2]) ['C', 'R'] = false :=
        hasSubL_CR_false _ hnoC
      have h6 : removeCRL (run.filter (· ≠ ',') ++ ['.', d1, d2]) =
          run.filter (· ≠ ',') ++ ['.', d1, d2] := by
        have := removeCRL_no_C (run.filter (· ≠ ',') ++ ['.', d1, d2]) []
          (fun x hx => by rintro rfl; exact hnoC hx)
        simpa using this
      have h8 : pyFloatCents (run.filter (· ≠ ',') ++ ['.', d1, d2]) =
          some ((digitsVal (run.filter (· ≠ ',')) * 100 + digitVal d1 * 10 +
            digitVal d2 : Nat) : Int) := by
        rw [pyFloatCents_not_sign _ (fun c hc => by
          rcases head_cases _ _ c hc with hm | ht
          · exact ⟨(digit_ne (hrd c hm)).2.2.2.1, (digit_ne (hrd c hm)).2.2.2.2.1⟩
          · simp only [List.head?_cons, Option.some.injEq] at ht
            rw [← ht]; exact ⟨by decide, by decide⟩)]
        exact pyFloatMag_eval _ d1 d2 hrd hd1 hd2
      rw [h1, h2, h3, h4, h5, h6, h3, h8]
      simp
    · have hu : upperL (run ++ ['.', d1, d2]) = run ++ ['.', d1, d2] := by
        unfold upperL
        refine map_id_of _ _ ?_
        intro c hc
        rcases List.mem_append.mp hc with hm | hm
        · exact hrunU c hm
        · have : c = '.' ∨ c = d1 ∨ c = d2 := by simpa using hm
          rcases this with rfl | rfl | rfl
          · decide
          · exact digit_toUpper hd1
          · exact digit_toUpper hd2
      have hnoC : 'C' ∉ run ++ ['.', d1, d2] := by
        intro hc
        rcases List.mem_append.mp hc with hm | hm
        · exact hrunC hm
        · have : ('C' : Char) = '.' ∨ 'C' = d1 ∨ 'C' = d2 := by simpa using hm
          rcases this with e | e | e
          · exact absurd e (by decide)
          · exact absurd hd1 (by rw [← e]; decide)
          · exact absurd hd2 (by rw [← e]; decide)
      show hasSubL (upperS ⟨run ++ ['.', d1, d2]⟩).toList ("CR".toList) = _
      have hcrl : ("CR" : String).toList = ['C', 'R'] := rfl
      rw [hcrl]
      show hasSubL (upperL (run ++ ['.', d1, d2])) ['C', 'R'] = _
      rw [hu]
      rw [hasSubL_CR_false _ hnoC]
      rfl
  · have hc2u : Char.toUpper c2 = 'C' := by rcases hc2 with rfl | rfl <;> decide
    have hr2u : Char.toUpper r2 = 'R' := by rcases hr2 with rfl | rfl <;> decide
    have hc2f : c2 ≠ ',' ∧ c2 ≠ '$' := by
      rcases hc2 with rfl | rfl <;> exact ⟨by decide, by decide⟩
    have hr2f : r2 ≠ ',' ∧ r2 ≠ '$' ∧ pySpace r2 = false := by
      rcases hr2 with rfl | rfl <;> exact ⟨by decide, by decide, by decide⟩
    have hnoC : 'C' ∉ run.filter (· ≠ ',') ++ ['.', d1, d2] := by
      intro hc
      rcases List.mem_append.mp hc with hm | hm
      · exact hrdC hm
      · have : ('C' : Char) = '.' ∨ 'C' = d1 ∨ 'C' = d2 := by simpa using hm
        rcases this with e | e | e
        · exact absurd e (by decide)
        · exact absurd hd1 (by rw [← e]; decide)
        · exact absurd hd2 (by rw [← e]; decide)
    have hhead : ∀ c, (run.filter (· ≠ ',') ++ ['.', d1, d2]).head? = some c →
        pySpace c = false := by
      intro c hc
      rcases head_cases _ _ c hc with hm | ht
      · exact digit_space (hrd c hm)
      · simp only [List.head?_cons, Option.some.injEq] at ht
        rw [← ht]; decide
    have hlast : ∀ c, (run.filter (· ≠ ',') ++ ['.', d1, d2]).getLast? = some c →
        pySpace c = false := by
      intro c hc
      have : (run.filter (· ≠ ',') ++ ['.', d1] ++ [d2]).getLast? = some c := by
        simpa [List.append_assoc] using hc
      rw [List.getLast?_concat] at this
      injection this with e
      rw [← e]
      exact digit_space hd2
    have h7 : pyStripL (run.filter (· ≠ ',') ++ ['.', d1, d2]) =
        run.filter (· ≠ ',') ++ ['.', d1, d2] := pyStripL_id _ hhead hlast
    have h8 : pyFloatCents (run.filter (· ≠ ',') ++ ['.', d1, d2]) =
        some ((digitsVal (run.filter (· ≠ ',')) * 100 + digitVal d1 * 10 +
          digitVal d2 : Nat) : Int) := by
      rw [pyFloatCents_not_sign _ (fun c hc => by
        rcases head_cases _ _ c hc with hm | ht
        · exact ⟨(digit_ne (hrd c hm)).2.2.2.1, (digit_ne (hrd c hm)).2.2.2.2.1⟩
        · simp only [List.head?_cons, Option.some.injEq] at ht
          rw [← ht]; exact ⟨by decide, by decide⟩)]
      exact pyFloatMag_eval _ d1 d2 hrd hd1 hd2
    refine ⟨digitsVal (run.filter (· ≠ ',')) * 100 + digitVal d1 * 10 + digitVal d2,
      ?_, ?_⟩
    · unfold bmo_amt
      dsimp only [String.toList]
      have h1 : (run ++ ['.', d1, d2, c2, r2]).filter (· ≠ ',') =
          run.filter (· ≠ ',') ++ ['.', d1, d2, c2, r2] := by
        rw [List.filter_append]
        simp [List.filter_cons, (digit_ne hd1).2.1, (digit_ne hd2).2.1,
          hc2f.1, hr2f.1]
      have h2 : (run.filter (· ≠ ',') ++ ['.', d1, d2, c2, r2]).filter (· ≠ '$') =
          run.filter (· ≠ ',') ++ ['.', d1, d2, c2, r2] := by
        rw [List.filter_append]
        rw [List.filter_eq_self.mpr (fun c hc => by
          simp only [decide_eq_true_eq]
          exact (digit_ne (hrd c hc)).2.2.1)]
        simp [List.filter_cons, (digit_ne hd1).2.2.1, (digit_ne hd2).2.2.1,
          hc2f.2, hr2f.2.1]
      have hhead2 : ∀ c, (run.filter (· ≠ ',') ++ ['.', d1, d2, c2, r2]).head? =
          some c → pySpace c = false := by
        intro c hc
        rcases head_cases _ _ c hc with hm | ht
        · exact digit_space (hrd c hm)
        · simp only [List.head?_cons, Option.some.injEq] at ht
          rw [← ht]; decide
      have hlast2 : ∀ c, (run.filter (· ≠ ',') ++ ['.', d1, d2, c2, r2]).getLast? =
          some c → pySpace c = false := by
        intro c hc
        have : (run.filter (· ≠ ',') ++ ['.', d1, d2, c2] ++ [r2]).getLast? =
            some c := by
          simpa [List.append_assoc] using hc
        rw [List.getLast?_concat] at this
        injection this with e
        rw [← e]
        exact hr2f.2.2
      have h3 : pyStripL (run.filter (· ≠ ',') ++ ['.', d1, d2, c2, r2]) =
          run.filter (· ≠ ',') ++ ['.', d1, d2, c2, r2] :=
        pyStripL_id _ hhead2 hlast2
      have h4 : upperL (run.filter (· ≠ ',') ++ ['.', d1, d2, c2, r2]) =
          run.filter (· ≠ ',') ++ ['.', d1, d2, 'C', 'R'] := by
        unfold upperL
        rw [List.map_append]
        rw [map_id_of _ _ (fun c hc => digit_toUpper (hrd c hc))]
        simp [digit_toUpper hd1, digit_toUpper hd2, hc2u, hr2u]
      have h5 : hasSubL (run.filter (· ≠ ',') ++ ['.', d1, d2, 'C', 'R'])
          ['C', 'R'] = true := by
        have := hasSubL_append_right (run.filter (· ≠ ',') ++ ['.', d1, d2])
          ['C', 'R'] ['C', 'R'] (by decide)
        simpa [List.append_assoc] using this
      have h6 : removeCRL (run.filter (· ≠ ',') ++ ['.', d1, d2, 'C', 'R']) =
          run.filter (· ≠ ',') ++ ['.', d1, d2] := by
        have := removeCRL_no_C (run.filter (· ≠ ',') ++ ['.', d1, d2]) ['C', 'R']
          (fun x hx => fun e => hnoC (e ▸ hx))
        simpa [List.append_assoc] using this
      rw [h1, h2, h3, h4, h5, h6, h7, h8]
      simp
    · have hu : upperL (run ++ ['.', d1, d2, c2, r2]) =
          run ++ ['.', d1, d2, 'C', 'R'] := by
        unfold upperL
        rw [List.map_append]
        rw [map_id_of _ _ hrunU]
        simp [digit_toUpper hd1, digit_toUpper hd2, hc2u, hr2u]
      show hasSubL (upperS ⟨run ++ ['.', d1, d2, c2, r2]⟩).toList ("CR".toList) = _
      have hcrl : ("CR" : String).toList = ['C', 'R'] := rfl
      rw [hcrl]
      show hasSubL (upperL (run ++ ['.', d1, d2, c2, r2])) ['C', 'R'] = _
      rw [hu]
      have : hasSubL (run ++ ['.', d1, d2, 'C', 'R']) ['C', 'R'] = true := by
        have := hasSubL_append_right (run ++ ['.', d1, d2]) ['C', 'R'] ['C', 'R']
          (by decide)
        simpa [List.append_assoc] using this
      rw [this]
      rfl
  · have hsf := space_facts hs2
    have hc2u : Char.toUpper c2 = 'C' := by rcases hc2 with rfl | rfl <;> decide
    have hr2u : Char.toUpper r2 = 'R' := by rcases hr2 with rfl | rfl <;> decide
    have hc2f : c2 ≠ ',' ∧ c2 ≠ '$' := by
      rcases hc2 with rfl | rfl <;> exact ⟨by decide, by decide⟩
    have hr2f : r2 ≠ ',' ∧ r2 ≠ '$' ∧ pySpace r2 = false := by
      rcases hr2 with rfl | rfl <;> exact ⟨by decide, by decide, by decide⟩
    have hnoC : 'C' ∉ run.filter (· ≠ ',') ++ ['.', d1, d2] := by
      intro hc
      rcases List.mem_append.mp hc with hm | hm
      · exact hrdC hm
      · have : ('C' : Char) = '.' ∨ 'C' = d1 ∨ 'C' = d2 := by simpa using hm
        rcases this with e | e | e
        · exact absurd e (by decide)
        · exact absurd hd1 (by rw [← e]; decide)
        · exact absurd hd2 (by rw [← e]; decide)
    have hhead : ∀ c, (run.filter (· ≠ ',') ++ ['.', d1, d2]).head? = some c →
        pySpace c = false := by
      intro c hc
      rcases head_cases _ _ c hc with hm | ht
      · exact digit_space (hrd c hm)
      · simp only [List.head?_cons, Option.some.injEq] at ht
        rw [← ht]; decide
    have hlast : ∀ c, (run.filter (· ≠ ',') ++ ['.', d1, d2]).getLast? = some c →
        pySpace c = false := by
      intro c hc
      have : (run.filter (· ≠ ',') ++ ['.', d1] ++ [d2]).getLast? = some c := by
        simpa [List.append_assoc] using hc
      rw [List.getLast?_concat] at this
      injection this with e
      rw [← e]
      exact digit_space hd2
    have h7 : pyStripL (run.filter (· ≠ ',') ++ ['.', d1, d2]) =
        run.filter (· ≠ ',') ++ ['.', d1, d2] := pyStripL_id _ hhead hlast
    have h8 : pyFloatCents (run.filter (· ≠ ',') ++ ['.', d1, d2]) =
        some ((digitsVal (run.filter (· ≠ ',')) * 100 + digitVal d1 * 10 +
          digitVal d2 : Nat) : Int) := by
      rw [pyFloatCents_not_sign _ (fun c hc => by
        rcases head_cases _ _ c hc with hm | ht
        · exact ⟨(digit_ne (hrd c hm)).2.2.2.1, (digit_ne (hrd c hm)).2.2.2.2.1⟩
        · simp only [List.head?_cons, Option.some.injEq] at ht
          rw [← ht]; exact ⟨by decide, by decide⟩)]
      exact pyFloatMag_eval _ d1 d2 hrd hd1 hd2
    refine ⟨digitsVal (run.filter (· ≠ ',')) * 100 + digitVal d1 * 10 + digitVal d2,
      ?_, ?_⟩
    · unfold bmo_amt
      dsimp only [String.toList]
      have h1 : (run ++ ['.', d1, d2, s2, c2, r2]).filter (· ≠ ',') =
          run.filter (· ≠ ',') ++ ['.', d1, d2, s2, c2, r2] := by
        rw [List.filter_append]
        simp [List.filter_cons, (digit_ne hd1).2.1, (digit_ne hd2).2.1,
          hsf.2.2.1, hc2f.1, hr2f.1]
      have h2 : (run.filter (· ≠ ',') ++
            ['.', d1, d2, s2, c2, r2]).filter (· ≠ '$') =
          run.filter (· ≠ ',') ++ ['.', d1, d2, s2, c2, r2] := by
        rw [List.filter_append]
        rw [List.filter_eq_self.mpr (fun c hc => by
          simp only [decide_eq_true_eq]
          exact (digit_ne (hrd c hc)).2.2.1)]
        simp [List.filter_cons, (digit_ne hd1).2.2.1, (digit_ne hd2).2.2.1,
          hsf.2.2.2, hc2f.2, hr2f.2.1]
      have hhead2 : ∀ c, (run.filter (· ≠ ',') ++
          ['.', d1, d2, s2, c2, r2]).head? = some c → pySpace c = false := by
        intro c hc
        rcases head_cases _ _ c hc with hm | ht
        · exact digit_space (hrd c hm)
        · simp only [List.head?_cons, Option.some.injEq] at ht
          rw [← ht]; decide
      have hlast2 : ∀ c, (run.filter (· ≠ ',') ++
          ['.', d1, d2, s2, c2, r2]).getLast? = some c → pySpace c = false := by
        intro c hc
        have : (run.filter (· ≠ ',') ++ ['.', d1, d2, s2, c2] ++ [r2]).getLast? =
            some c := by
          simpa [List.append_assoc] using hc
        rw [List.getLast?_concat] at this
        injection this with e
        rw [← e]
        exact hr2f.2.2
      have h3 : pyStripL (run.filter (· ≠ ',') ++ ['.', d1, d2, s2, c2, r2]) =
          run.filter (· ≠ ',') ++ ['.', d1, d2, s2, c2, r2] :=
        pyStripL_id _ hhead2 hlast2
      have h4 : upperL (run.filter (· ≠ ',') ++ ['.', d1, d2, s2, c2, r2]) =
          run.filter (· ≠ ',') ++ ['.', d1, d2, s2, 'C', 'R'] := by
        unfold upperL
        rw [List.map_append]
        rw [map_id_of _ _ (fun c hc => digit_toUpper (hrd c hc))]
        simp [digit_toUpper hd1, digit_toUpper hd2, hsf.1, hc2u, hr2u]
      have h5 : hasSubL (run.filter (· ≠ ',') ++ ['.', d1, d2, s2, 'C', 'R'])
          ['C', 'R'] = true := by
        have := hasSubL_append_right (run.filter (· ≠ ',') ++ ['.', d1, d2, s2])
          ['C', 'R'] ['C', 'R'] (by decide)
        simpa [List.append_assoc] using this
      have h6 : removeCRL (run.filter (· ≠ ',') ++ ['.', d1, d2, s2, 'C', 'R']) =
          run.filter (· ≠ ',') ++ ['.', d1, d2, s2] := by
        have := removeCRL_no_C (run.filter (· ≠ ',') ++ ['.', d1, d2, s2])
          ['C', 'R'] (fun x hx => by
            rcases List.mem_append.mp hx with hm | hm
            · exact fun e => hnoC (List.mem_append.mpr (Or.inl (e ▸ hm)))
            · have : x = '.' ∨ x = d1 ∨ x = d2 ∨ x = s2 := by simpa using hm
              rcases this with rfl | rfl | rfl | rfl
              · decide
              · rintro rfl; exact absurd hd1 (by decide)
              · rintro rfl; exact absurd hd2 (by decide)
              · rintro rfl; exact absurd hs2 (by decide))
        simpa [List.append_assoc] using this
      have h7b : pyStripL (run.filter (· ≠ ',') ++ ['.', d1, d2, s2]) =
          run.filter (· ≠ ',') ++ ['.', d1, d2] := by
        have ha : run.filter (· ≠ ',') ++ ['.', d1, d2, s2] =
            (run.filter (· ≠ ',') ++ ['.', d1, d2]) ++ [s2] := by
          simp [List.append_assoc]
        rw [ha, pyStripL_snoc_space _ s2 hs2, h7]
      rw [h1, h2, h3, h4, h5, h6, h7b, h8]
      simp
    · have hu : upperL (run ++ ['.', d1, d2, s2, c2, r2]) =
          run ++ ['.', d1, d2, s2, 'C', 'R'] := by
        unfold upperL
        rw [List.map_append]
        rw [map_id_of _ _ hrunU]
        simp [digit_toUpper hd1, digit_toUpper hd2, hsf.1, hc2u, hr2u]
      show hasSubL (upperS ⟨run ++ ['.', d1, d2, s2, c2, r2]⟩).toList
        ("CR".toList) = _
      have hcrl : ("CR" : String).toList = ['C', 'R'] := rfl
      rw [hcrl]
      show hasSubL (upperL (run ++ ['.', d1, d2, s2, c2, r2])) ['C', 'R'] = _
      rw [hu]
      have : hasSubL (run ++ ['.', d1, d2, s2, 'C', 'R']) ['C', 'R'] = true := by
        have := hasSubL_append_right (run ++ ['.', d1, d2, s2]) ['C', 'R']
          ['C', 'R'] (by decide)
        simpa [List.append_assoc] using this
      rw [this]
      rfl

/-- C4 counterexample: the BMO line `"Jan 5 Jan 6 PAYMENT -45.67"` matches
the structural transaction pattern with amount token `"-45.67"`, which has
no "CR" suffix, yet `_bmo_amt` produces +45.67 (the leading minus of the
numeral is negated away), so the produced amount is not negative. -/
theorem C4_cex :
    bmoTransMatch "Jan 5 Jan 6 PAYMENT -45.67" =
      some ("Jan 5", "Jan 6", "PAYMENT", "-45.67") ∧
    hasSub (upperS "-45.67") "CR" = false ∧
    bmo_amt "-45.67" = some 4567 ∧ ¬((4567 : Int) < 0) := by
  exact ⟨by decide, by decide, by decide, by decide⟩

/-- C4 (amended): for every BMO line matched by the structural transaction
pattern, if the amount token does not begin with a minus sign and the
parsed amount is nonzero, then the produced amount is positive when the
token contains "CR" (case-insensitive) and negative otherwise. -/
theorem C4_amended_thm (line g1 g2 desc amt : String) (v : Int)
    (hm : bmoTransMatch line = some (g1, g2, desc, amt))
    (hh : amt.toList.head? ≠ some '-')
    (ha : bmo_amt amt = some v) (hv : v ≠ 0) :
    (hasSub (upperS amt) "CR" = true → 0 < v) ∧
    (hasSub (upperS amt) "CR" = false → v < 0) := by
  obtain ⟨mp, run, d1, d2, suf, htok, hmp, hne, hmem, hd1, hd2, hsuf⟩ :=
    bmoTransMatch_amt line g1 g2 desc amt hm
  have hmp0 : mp = [] := by
    rcases hmp with rfl | rfl
    · rfl
    · exact absurd (by rw [htok]; rfl) hh
  subst hmp0
  rw [List.nil_append] at htok
  have hamt : amt = ⟨run ++ '.' :: d1 :: d2 :: suf⟩ := by
    cases amt with
    | mk data =>
      dsimp only [String.toList] at htok
      rw [htok]
  obtain ⟨N, hval, hcr⟩ := bmo_amt_eval run suf d1 d2 hmem hd1 hd2 hsuf
  rw [hamt] at ha
  rw [ha] at hval
  injection hval with hv2
  rw [hamt, hcr]
  have h0 : 0 ≤ (N : Int) := Int.natCast_nonneg N
  by_cases hs : suf.isEmpty
  · rw [hs] at hv2
    rw [if_pos rfl] at hv2
    rw [hs]
    constructor
    · intro hx
      exact absurd hx (by decide)
    · intro _
      omega
  · rw [Bool.not_eq_true] at hs
    rw [hs] at hv2
    rw [if_neg (by decide)] at hv2
    rw [hs]
    constructor
    · intro _
      omega
    · intro hx
      exact absurd hx (by decide)

/-- C4 witness: on the BMO line `"Jan 5 Jan 6 FEE 45.67 CR"` the matched
amount token `"45.67 CR"` carries the CR marker and the produced amount
+45.67 is positive. -/
theorem C4_amended_witness :
    (hasSub (upperS "45.67 CR") "CR" = true → (0 : Int) < 4567) ∧
    (hasSub (upperS "45.67 CR") "CR" = false → (4567 : Int) < 0) :=
  C4_amended_thm "Jan 5 Jan 6 FEE 45.67 CR" "Jan 5" "Jan 6" "FEE" "45.67 CR" 4567
    (by decide) (by decide) (by decide) (by decide)
